import Mathlib

/-!
# Students and hierarchical groups: a shallow embedding

The Go packages `entity`, `repo`, `persistent`, `usecase/group`, `usecase/student`
and `controller/http/v1` are embedded as Lean namespaces of the same names.

* A Go `error` is represented by its message (`err.Error()`), so a function
  returning `(T, error)` returns `Except String T`, and `fmt.Errorf("ctx: %w", err)`
  is `"ctx: " ++ err`.
* A database table is the list of its rows, in the order in which an unordered
  `SELECT` returns them.
* Recursive calls that Go does not bound are bounded here by a fuel argument;
  `none` means that the fuel ran out.
* The SQL function `LOWER` folds a text by the locale of the database; the folding
  is a field of the database value, so a statement about every database is a
  statement about every locale.
-/

set_option autoImplicit false

/-! ## Package `entity` -/

namespace entity

/-- The Go struct `entity.Student`. -/
structure Student where
  ID : Int
  GroupID : Int
  Name : String
  Email : String
  deriving DecidableEq, Repr

/-- The Go struct `entity.Group`; `ParentID *int` is an optional integer and the
nil slice `SubGroups` is the empty list. -/
inductive Group where
  | mk (ID : Int) (ParentID : Option Int) (Name : String) (SubGroups : List Group)

/-- Field `ID` of a group. -/
def Group.ID : Group → Int
  | .mk i _ _ _ => i

/-- Field `ParentID` of a group. -/
def Group.ParentID : Group → Option Int
  | .mk _ p _ _ => p

/-- Field `Name` of a group. -/
def Group.Name : Group → String
  | .mk _ _ n _ => n

/-- Field `SubGroups` of a group. -/
def Group.SubGroups : Group → List Group
  | .mk _ _ _ s => s

end entity

/-! ## Package `repo`: the repository interfaces -/

namespace repo

/-- The Go interface `repo.GroupRepo`, over a repository state `σ`.  Methods that
only read return a result; methods that write return a result and the next state.
The two recursive readers take the fuel that bounds their recursion. -/
structure GroupRepo (σ : Type) where
  CreateGroup : σ → entity.Group → Except String entity.Group × σ
  GetGroups : Nat → σ → Option (Except String (List entity.Group))
  GetGroupByID : σ → Int → Except String entity.Group
  UpdateGroup : σ → entity.Group → Except String Unit × σ
  DeleteGroup : σ → Int → Except String Unit × σ
  SearchGroups : σ → String → Except String (List entity.Group)
  HasSubgroups : σ → Int → Except String Bool
  GetGroupWithSubgroups : Nat → σ → Int → Option (Except String entity.Group)

/-- The Go interface `repo.StudentRepo`, over a repository state `σ`. -/
structure StudentRepo (σ : Type) where
  CreateStudent : σ → entity.Student → Except String entity.Student × σ
  GetStudents : σ → Except String (List entity.Student)
  GetStudentByID : σ → Int → Except String entity.Student
  UpdateStudent : σ → entity.Student → Except String Unit × σ
  DeleteStudent : σ → Int → Except String Unit × σ
  SearchStudents : σ → String → Except String (List entity.Student)

end repo

/-! ## Package `persistent`: the PostgreSQL repositories -/

namespace persistent

/-- One row of table `groups`: the columns `id`, `name`, `parent_id` that the
queries of `GroupRepo` read and write. -/
structure GroupRow where
  ID : Int
  Name : String
  ParentID : Option Int
  deriving DecidableEq, Repr

/-- One row of table `students`: the columns `id`, `name`, `email`, `group_id`. -/
structure StudentRow where
  ID : Int
  Name : String
  Email : String
  GroupID : Int
  deriving DecidableEq, Repr

/-- The characters with a special meaning in a `LIKE` pattern. -/
def IsLikeSpecial (c : Char) : Prop :=
  c = '%' ∨ c = '_' ∨ c = '\\'

instance (c : Char) : Decidable (IsLikeSpecial c) :=
  inferInstanceAs (Decidable (_ ∨ _ ∨ _))

/-- The SQL function `LOWER` of a database, which folds a text by the locale of the
database: the folding itself is any function on texts (given as lists of
characters) of which two facts of `LOWER` are known.  It leaves the two `%` that
enclose a text in place and folds the text between them as it folds it alone; and
it makes none of the characters `%`, `_` and backslash out of a text that has
none (a lower-case form is a letter). -/
structure CaseFold where
  lower : List Char → List Char
  lower_enclosed : ∀ s, lower ('%' :: (s ++ ['%'])) = '%' :: (lower s ++ ['%'])
  lower_plain : ∀ s, (∀ c ∈ s, ¬ IsLikeSpecial c) → ∀ c ∈ lower s, ¬ IsLikeSpecial c

/-- The folding that maps each character by `f`, for an `f` that leaves `%`, `_`
and backslash as they are and maps no other character to one of them. -/
def CaseFold.ofChar (f : Char → Char) (hfix : ∀ c, IsLikeSpecial c → f c = c)
    (hplain : ∀ c, ¬ IsLikeSpecial c → ¬ IsLikeSpecial (f c)) : CaseFold where
  lower := List.map f
  lower_enclosed := by
    intro s
    simp [hfix '%' (Or.inl rfl)]
  lower_plain := by
    intro s hs c hc
    obtain ⟨d, hd, rfl⟩ := List.mem_map.1 hc
    exact hplain d (hs d hd)

/-- The folding of the locale `C`: the letters `A` to `Z` are mapped to `a` to
`z`, every other character is left as it is. -/
def asciiFold : CaseFold :=
  CaseFold.ofChar Char.toLower
    (by
      intro c hc
      rcases hc with rfl | rfl | rfl <;> decide)
    (by
      intro c hc
      have hup : ∀ n : Nat, 65 ≤ n → n ≤ 90 → ¬ IsLikeSpecial (Char.ofNat (n + 32)) := by
        intro n h1 h2
        interval_cases n <;> decide
      simp only [Char.toLower]
      split_ifs with hrange
      · exact hup _ hrange.1 hrange.2
      · exact hc)

/-- The lower-case form of a character in a locale that knows the Latin letters `A`
to `Z` and the Cyrillic letters `А` to `Я` (code points 1040 to 1071). -/
def cyrillicLower (c : Char) : Char :=
  if 65 ≤ c.toNat ∧ c.toNat ≤ 90 then Char.ofNat (c.toNat + 32)
  else if 1040 ≤ c.toNat ∧ c.toNat ≤ 1071 then Char.ofNat (c.toNat + 32)
  else c

/-- The folding by `cyrillicLower`. -/
def cyrillicFold : CaseFold :=
  CaseFold.ofChar cyrillicLower
    (by
      intro c hc
      rcases hc with rfl | rfl | rfl <;> decide)
    (by
      intro c hc
      have hup : ∀ n : Nat, 65 ≤ n → n ≤ 90 → ¬ IsLikeSpecial (Char.ofNat (n + 32)) := by
        intro n h1 h2
        interval_cases n <;> decide
      have hcyr : ∀ n : Nat, 1040 ≤ n → n ≤ 1071 →
          ¬ IsLikeSpecial (Char.ofNat (n + 32)) := by
        intro n h1 h2
        interval_cases n <;> decide
      simp only [cyrillicLower]
      split_ifs with h1 h2
      · exact hup _ h1.1 h1.2
      · exact hcyr _ h2.1 h2.2
      · exact hc)

/-- Modelled from the spec: the database behind `*postgres.Postgres`, whose table
declarations (the migrations) are missing from the sources.  A table is the list
of its rows, in the order in which an unordered `SELECT` returns them.  Per the
spec an identifier is an integer "assigned by store on creation": each table has
the next value of the sequence behind its `id` column, and `id` is the key of the
table, so an insert under an `id` that a row already has is refused.  References
(`parent_id`, `group_id`) are not checked against the existing groups.  The
database also fixes what the SQL function `LOWER` does (its locale). -/
structure Postgres where
  groups : List GroupRow
  students : List StudentRow
  groupsSeq : Int
  studentsSeq : Int
  fold : CaseFold

/-- The message of `pgx.ErrNoRows`, which `QueryRow(...).Scan` returns when the
query selects no row. -/
def ErrNoRows : String := "no rows in result set"

/-- The message of the error that PostgreSQL raises for an insert under an
existing key. -/
def ErrUniqueViolation : String :=
  "ERROR: duplicate key value violates unique constraint (SQLSTATE 23505)"

/-- What `rows.Scan(&g.ID, &g.Name, &parentID)` followed by `g.ParentID = parentID`
builds from a row: a group without subgroups. -/
def scanGroup (row : GroupRow) : entity.Group :=
  .mk row.ID row.ParentID row.Name []

/-- Query `SELECT id, name, parent_id FROM groups WHERE id = ?`. -/
def selectByID (groups : List GroupRow) (id : Int) : List GroupRow :=
  groups.filter (fun row => row.ID = id)

/-- Query `SELECT id, name, parent_id FROM groups WHERE parent_id = ?`. -/
def selectByParent (groups : List GroupRow) (id : Int) : List GroupRow :=
  groups.filter (fun row => row.ParentID = some id)

/-- Query `SELECT id, name, parent_id FROM groups WHERE parent_id IS NULL`. -/
def selectRoots (groups : List GroupRow) : List GroupRow :=
  groups.filter (fun row => row.ParentID = none)

/-- Method `GroupRepo.CreateGroup`: `INSERT INTO groups (name, parent_id) VALUES (?, ?)
RETURNING id`, the returned id scanned into `group.ID`. -/
def GroupRepo.CreateGroup (r : Postgres) (group : entity.Group) :
    Except String entity.Group × Postgres :=
  let id := r.groupsSeq
  if r.groups.any (fun row => row.ID = id) then
    (.error ("GroupRepo - CreateGroup - r.Pool.QueryRow: " ++ ErrUniqueViolation),
      { r with groupsSeq := id + 1 })
  else
    (.ok (.mk id group.ParentID group.Name group.SubGroups),
      { r with groups := r.groups ++ [⟨id, group.Name, group.ParentID⟩], groupsSeq := id + 1 })

/-- Method `GroupRepo.GetGroupByID`: the first selected row, or the wrapped `ErrNoRows`. -/
def GroupRepo.GetGroupByID (r : Postgres) (id : Int) : Except String entity.Group :=
  match selectByID r.groups id with
  | [] => .error ("GroupRepo - GetGroupByID - r.Pool.QueryRow: " ++ ErrNoRows)
  | row :: _ => .ok (scanGroup row)

/-- Method `GroupRepo.HasSubgroups`: `SELECT COUNT(*) FROM groups WHERE parent_id = ?`,
then `count > 0`. -/
def GroupRepo.HasSubgroups (r : Postgres) (id : Int) : Except String Bool :=
  let count : Int := (selectByParent r.groups id).length
  .ok (decide (count > 0))

/-- Method `GroupRepo.DeleteGroup`: `DELETE FROM groups WHERE id = ?`; `Exec` reports no
error when no row is affected. -/
def GroupRepo.DeleteGroup (r : Postgres) (id : Int) : Except String Unit × Postgres :=
  (.ok (), { r with groups := r.groups.filter (fun row => ¬ row.ID = id) })

/-- Method `GroupRepo.UpdateGroup`: `UPDATE groups SET name = ?, parent_id = ? WHERE id = ?`;
`Exec` reports no error when no row is affected. -/
def GroupRepo.UpdateGroup (r : Postgres) (group : entity.Group) :
    Except String Unit × Postgres :=
  (.ok (), { r with groups := r.groups.map (fun row =>
    if row.ID = group.ID then { row with Name := group.Name, ParentID := group.ParentID }
    else row) })

/-- The SQL function `LOWER` on a text value, as the list of the characters of the
result: the folding of the database applied to the characters of the text. -/
def sqlLower (fold : CaseFold) (s : String) : List Char :=
  fold.lower s.toList

/-- Whether the text `t` has a split into a part that `%` absorbs and a rest
accepted by `rest`. -/
def likeAny (rest : List Char → Bool) : List Char → Bool
  | [] => rest []
  | c :: t => rest (c :: t) || likeAny rest t

/-- The SQL operator `text LIKE pattern` of PostgreSQL, with the pattern first:
`%` matches any sequence of characters, `_` any single character, a backslash
makes the next pattern character literal, and any other character matches itself.
(A pattern that ends in a lone backslash is an error in PostgreSQL; no pattern
built by this repository ends so, and it matches nothing here.) -/
def sqlLike : List Char → List Char → Bool
  | [], t => t.isEmpty
  | c :: p, t =>
    if c = '%' then likeAny (sqlLike p) t
    else if c = '_' then
      match t with
      | [] => false
      | _ :: t' => sqlLike p t'
    else if c = '\\' then
      match p, t with
      | e :: p', d :: t' => decide (e = d) && sqlLike p' t'
      | _, _ => false
    else
      match t with
      | [] => false
      | d :: t' => decide (c = d) && sqlLike p t'

/-- Method `GroupRepo.SearchGroups`: `SELECT id, name, parent_id FROM groups WHERE
LOWER(name) LIKE LOWER(?)` with the argument `"%" + query + "%"`. -/
def GroupRepo.SearchGroups (r : Postgres) (query : String) :
    Except String (List entity.Group) :=
  .ok ((r.groups.filter (fun row =>
    sqlLike (sqlLower r.fold ("%" ++ query ++ "%")) (sqlLower r.fold row.Name))).map
    scanGroup)

/-- The loop `for rows.Next() { ... }` of `GetGroupWithSubgroups` and of
`GetGroups`: for each selected row, call `getFull` on the row's id, return at once
when that call fails, and otherwise append its result. -/
def appendSubgroups (getFull : Int → Option (Except String entity.Group)) :
    List GroupRow → List entity.Group → Option (Except String (List entity.Group))
  | [], acc => some (.ok acc)
  | row :: rows, acc =>
    match getFull row.ID with
    | none => none
    | some (.error err) => some (.error err)
    | some (.ok full) => appendSubgroups getFull rows (acc ++ [full])

/-- Method `GroupRepo.GetGroupWithSubgroups`: the group itself by `GetGroupByID`, then one
recursive call per row that names `id` as its parent. -/
def GroupRepo.GetGroupWithSubgroups :
    Nat → Postgres → Int → Option (Except String entity.Group)
  | 0, _, _ => none
  | fuel + 1, r, id =>
    match GroupRepo.GetGroupByID r id with
    | .error err => some (.error err)
    | .ok group =>
      match appendSubgroups (GroupRepo.GetGroupWithSubgroups fuel r)
          (selectByParent r.groups id) group.SubGroups with
      | none => none
      | some (.error err) => some (.error err)
      | some (.ok subGroups) =>
        some (.ok (.mk group.ID group.ParentID group.Name subGroups))

/-- Method `GroupRepo.GetGroups`: every row without a parent, expanded by
`GetGroupWithSubgroups`. -/
def GroupRepo.GetGroups (fuel : Nat) (r : Postgres) :
    Option (Except String (List entity.Group)) :=
  appendSubgroups (GroupRepo.GetGroupWithSubgroups fuel r) (selectRoots r.groups) []

/-- Constructor `NewGroupRepo`: the PostgreSQL implementation of `repo.GroupRepo`. -/
def NewGroupRepo : repo.GroupRepo Postgres where
  CreateGroup := GroupRepo.CreateGroup
  GetGroups := GroupRepo.GetGroups
  GetGroupByID := GroupRepo.GetGroupByID
  UpdateGroup := GroupRepo.UpdateGroup
  DeleteGroup := GroupRepo.DeleteGroup
  SearchGroups := GroupRepo.SearchGroups
  HasSubgroups := GroupRepo.HasSubgroups
  GetGroupWithSubgroups := GroupRepo.GetGroupWithSubgroups

/-- What `rows.Scan(&s.ID, &s.Name, &s.GroupID)` builds from a row: the email is
not selected and keeps its zero value. -/
def scanStudent (row : StudentRow) : entity.Student :=
  { ID := row.ID, GroupID := row.GroupID, Name := row.Name, Email := "" }

/-- Method `StudentRepo.CreateStudent`: `INSERT INTO students (name, email, group_id)
VALUES (?, ?, ?) RETURNING id`, the returned id scanned into `student.ID`. -/
def StudentRepo.CreateStudent (r : Postgres) (student : entity.Student) :
    Except String entity.Student × Postgres :=
  let id := r.studentsSeq
  if r.students.any (fun row => row.ID = id) then
    (.error ("StudentRepo - CreateStudent - r.Pool.QueryRow: " ++ ErrUniqueViolation),
      { r with studentsSeq := id + 1 })
  else
    (.ok { student with ID := id },
      { r with
        students := r.students ++ [⟨id, student.Name, student.Email, student.GroupID⟩],
        studentsSeq := id + 1 })

/-- Method `StudentRepo.GetStudents`: `SELECT id, name, group_id FROM students`. -/
def StudentRepo.GetStudents (r : Postgres) : Except String (List entity.Student) :=
  .ok (r.students.map scanStudent)

/-- Method `StudentRepo.GetStudentByID`: `SELECT id, name, group_id FROM students WHERE
id = ?`, the first selected row or the wrapped `ErrNoRows`. -/
def StudentRepo.GetStudentByID (r : Postgres) (id : Int) : Except String entity.Student :=
  match r.students.filter (fun row => row.ID = id) with
  | [] => .error ("StudentRepo - GetStudentByID - r.Pool.QueryRow: " ++ ErrNoRows)
  | row :: _ => .ok (scanStudent row)

/-- Method `StudentRepo.UpdateStudent`: `UPDATE students SET name = ?, group_id = ? WHERE
id = ?`. -/
def StudentRepo.UpdateStudent (r : Postgres) (student : entity.Student) :
    Except String Unit × Postgres :=
  (.ok (), { r with students := r.students.map (fun row =>
    if row.ID = student.ID then { row with Name := student.Name, GroupID := student.GroupID }
    else row) })

/-- Method `StudentRepo.DeleteStudent`: `DELETE FROM students WHERE id = ?`. -/
def StudentRepo.DeleteStudent (r : Postgres) (id : Int) : Except String Unit × Postgres :=
  (.ok (), { r with students := r.students.filter (fun row => ¬ row.ID = id) })

/-- Method `StudentRepo.SearchStudents`: `SELECT s.id, s.name, s.group_id FROM students s
JOIN groups g ON s.group_id = g.id WHERE LOWER(s.name) LIKE LOWER(?) OR
LOWER(g.name) LIKE LOWER(?)`, both arguments `"%" + query + "%"`: one result row
per pair of a student and a group that the join condition and the filter accept. -/
def StudentRepo.SearchStudents (r : Postgres) (query : String) :
    Except String (List entity.Student) :=
  .ok ((r.students.flatMap (fun s =>
    (r.groups.filter (fun g => decide (s.GroupID = g.ID) &&
      (sqlLike (sqlLower r.fold ("%" ++ query ++ "%")) (sqlLower r.fold s.Name) ||
        sqlLike (sqlLower r.fold ("%" ++ query ++ "%")) (sqlLower r.fold g.Name)))).map
      (fun _ => s))).map scanStudent)

/-- Constructor `NewStudentRepo`: the PostgreSQL implementation of `repo.StudentRepo`. -/
def NewStudentRepo : repo.StudentRepo Postgres where
  CreateStudent := StudentRepo.CreateStudent
  GetStudents := StudentRepo.GetStudents
  GetStudentByID := StudentRepo.GetStudentByID
  UpdateStudent := StudentRepo.UpdateStudent
  DeleteStudent := StudentRepo.DeleteStudent
  SearchStudents := StudentRepo.SearchStudents

end persistent

/-! ## Package `usecase/group` -/

namespace group

/-- The Go struct `group.UseCase`: it holds the repository. -/
structure UseCase (σ : Type) where
  repo : repo.GroupRepo σ

/-- Constructor `group.New`. -/
def New {σ : Type} (r : repo.GroupRepo σ) : UseCase σ :=
  { repo := r }

/-- Method `UseCase.CreateGroup`. -/
def UseCase.CreateGroup {σ : Type} (uc : UseCase σ) (s : σ) (group : entity.Group) :
    Except String entity.Group × σ :=
  match uc.repo.CreateGroup s group with
  | (.error err, s') =>
    (.error ("GroupUseCase - CreateGroup - uc.repo.CreateGroup: " ++ err), s')
  | (.ok g, s') => (.ok g, s')

/-- Method `UseCase.GetGroups`. -/
def UseCase.GetGroups {σ : Type} (uc : UseCase σ) (fuel : Nat) (s : σ) :
    Option (Except String (List entity.Group)) :=
  match uc.repo.GetGroups fuel s with
  | none => none
  | some (.error err) =>
    some (.error ("GroupUseCase - GetGroups - uc.repo.GetGroups: " ++ err))
  | some (.ok groups) => some (.ok groups)

/-- Method `UseCase.GetGroupByID`. -/
def UseCase.GetGroupByID {σ : Type} (uc : UseCase σ) (s : σ) (id : Int) :
    Except String entity.Group :=
  match uc.repo.GetGroupByID s id with
  | .error err => .error ("GroupUseCase - GetGroupByID - uc.repo.GetGroupByID: " ++ err)
  | .ok group => .ok group

/-- Method `UseCase.UpdateGroup`. -/
def UseCase.UpdateGroup {σ : Type} (uc : UseCase σ) (s : σ) (group : entity.Group) :
    Except String Unit × σ :=
  match uc.repo.UpdateGroup s group with
  | (.error err, s') =>
    (.error ("GroupUseCase - UpdateGroup - uc.repo.UpdateGroup: " ++ err), s')
  | (.ok (), s') => (.ok (), s')

/-- Method `UseCase.DeleteGroup`: the check for subgroups, then the delete. -/
def UseCase.DeleteGroup {σ : Type} (uc : UseCase σ) (s : σ) (id : Int) :
    Except String Unit × σ :=
  match uc.repo.HasSubgroups s id with
  | .error err =>
    (.error ("GroupUseCase - DeleteGroup - uc.repo.HasSubgroups: " ++ err), s)
  | .ok hasSubgroups =>
    if hasSubgroups then
      (.error "cannot delete group with subgroups", s)
    else
      match uc.repo.DeleteGroup s id with
      | (.error err, s') =>
        (.error ("GroupUseCase - DeleteGroup - uc.repo.DeleteGroup: " ++ err), s')
      | (.ok (), s') => (.ok (), s')

/-- Method `UseCase.SearchGroups`. -/
def UseCase.SearchGroups {σ : Type} (uc : UseCase σ) (s : σ) (query : String) :
    Except String (List entity.Group) :=
  match uc.repo.SearchGroups s query with
  | .error err => .error ("GroupUseCase - SearchGroups - uc.repo.SearchGroups: " ++ err)
  | .ok groups => .ok groups

end group

/-! ## Package `usecase/student` -/

namespace student

/-- The Go struct `student.UseCase`: it holds the repository. -/
structure UseCase (σ : Type) where
  repo : repo.StudentRepo σ

/-- Constructor `student.New`. -/
def New {σ : Type} (r : repo.StudentRepo σ) : UseCase σ :=
  { repo := r }

/-- Method `UseCase.CreateStudent`. -/
def UseCase.CreateStudent {σ : Type} (uc : UseCase σ) (s : σ) (student : entity.Student) :
    Except String entity.Student × σ :=
  match uc.repo.CreateStudent s student with
  | (.error err, s') =>
    (.error ("StudentUseCase - CreateStudent - uc.repo.CreateStudent: " ++ err), s')
  | (.ok created, s') => (.ok created, s')

/-- Method `UseCase.GetStudents`. -/
def UseCase.GetStudents {σ : Type} (uc : UseCase σ) (s : σ) :
    Except String (List entity.Student) :=
  match uc.repo.GetStudents s with
  | .error err => .error ("StudentUseCase - GetStudents - uc.repo.GetStudents: " ++ err)
  | .ok students => .ok students

/-- Method `UseCase.GetStudentByID`. -/
def UseCase.GetStudentByID {σ : Type} (uc : UseCase σ) (s : σ) (id : Int) :
    Except String entity.Student :=
  match uc.repo.GetStudentByID s id with
  | .error err =>
    .error ("StudentUseCase - GetStudentByID - uc.repo.GetStudentByID: " ++ err)
  | .ok student => .ok student

/-- Method `UseCase.SearchStudents`. -/
def UseCase.SearchStudents {σ : Type} (uc : UseCase σ) (s : σ) (query : String) :
    Except String (List entity.Student) :=
  match uc.repo.SearchStudents s query with
  | .error err =>
    .error ("StudentUseCase - SearchStudents - uc.repo.SearchStudents: " ++ err)
  | .ok students => .ok students

end student

/-! ## Package `controller/http/v1`: the handlers -/

namespace v1

/-- The value a handler passes to `ctx.JSON`, or nothing for `ctx.SendStatus`. -/
inductive Body where
  | empty
  | message (msg : String)
  | student (s : entity.Student)
  | students (l : List entity.Student)
  | group (g : entity.Group)
  | groups (l : List entity.Group)

/-- What a handler answers: the HTTP status and the serialized value. -/
structure Response where
  status : Nat
  body : Body

/-- Modelled from the spec: `errorResponse` of package `v1`, whose file is missing
from the sources; per the spec the error body is `{message: string}` with the
stated HTTP status. -/
def errorResponse (code : Nat) (msg : String) : Response :=
  { status := code, body := .message msg }

/-- The constants `http.StatusCreated`, `http.StatusOK`, ... of `net/http`. -/
def StatusOK : Nat := 200
/-- The constant `http.StatusCreated`. -/
def StatusCreated : Nat := 201
/-- The constant `http.StatusNoContent`. -/
def StatusNoContent : Nat := 204
/-- The constant `http.StatusBadRequest`. -/
def StatusBadRequest : Nat := 400
/-- The constant `http.StatusNotFound`. -/
def StatusNotFound : Nat := 404
/-- The constant `http.StatusConflict`. -/
def StatusConflict : Nat := 409
/-- The constant `http.StatusInternalServerError`. -/
def StatusInternalServerError : Nat := 500

/-- The fields that `encoding/json` writes for an `entity.Student`, in the order of
the struct, as pairs of a key and the printed value; the tag `omitempty` on
`Email` leaves the key out when the email is the empty string. -/
def studentJSON (s : entity.Student) : List (String × String) :=
  [("id", toString s.ID), ("group_id", toString s.GroupID), ("name", s.Name)] ++
    (if s.Email = "" then [] else [("email", s.Email)])

/-- The part of `*validator.Validate` that the struct tags use: the check behind
the tag `email` is a parameter; the tag `required` refuses the zero value. -/
structure Validate where
  email : String → Bool

/-- The Go struct `createStudentRequest`. -/
structure createStudentRequest where
  Name : String
  Email : String
  GroupID : Int
  deriving DecidableEq, Repr

/-- Call `r.v.Struct(request)` for a `createStudentRequest`: `Name` is `required`,
`Email` is `required,email`, `GroupID` is `required`. -/
def Validate.createStudentRequest (v : Validate) (request : createStudentRequest) : Bool :=
  decide (request.Name ≠ "") && (decide (request.Email ≠ "") && v.email request.Email) &&
    decide (request.GroupID ≠ 0)

/-- The Go struct `studentRoutes` (without the logger). -/
structure studentRoutes (σ : Type) where
  s : student.UseCase σ
  v : Validate

/-- Handler `studentRoutes.createStudent` of `POST /students`; `parsed` is what
`ctx.BodyParser(&request)` makes of the request body. -/
def studentRoutes.createStudent {σ : Type} (r : studentRoutes σ) (st : σ)
    (parsed : Except String createStudentRequest) : Response × σ :=
  match parsed with
  | .error _ => (errorResponse StatusBadRequest "invalid request body", st)
  | .ok request =>
    if ¬ r.v.createStudentRequest request then
      (errorResponse StatusBadRequest "validation failed", st)
    else
      let student : entity.Student :=
        { ID := 0, Name := request.Name, Email := request.Email, GroupID := request.GroupID }
      match r.s.CreateStudent st student with
      | (.error _, st') =>
        (errorResponse StatusInternalServerError "failed to create student", st')
      | (.ok createdStudent, st') =>
        ({ status := StatusCreated, body := .student createdStudent }, st')

/-- The Go struct `groupRoutes` (without the logger, and without the validator,
of which the handlers embedded here use only the tag `required`). -/
structure groupRoutes (σ : Type) where
  g : group.UseCase σ

/-- Handler `groupRoutes.getGroupByID` of `GET /groups/:id`; `id` is what
`strconv.Atoi(ctx.Params("id"))` returns. -/
def groupRoutes.getGroupByID {σ : Type} (r : groupRoutes σ) (st : σ)
    (id : Except String Int) : Response :=
  match id with
  | .error _ => errorResponse StatusBadRequest "invalid id parameter"
  | .ok id =>
    match r.g.GetGroupByID st id with
    | .error _ => errorResponse StatusNotFound "group not found"
    | .ok group => { status := StatusOK, body := .group group }

/-- Handler `groupRoutes.deleteGroup` of `DELETE /groups/:id`; `id` is what
`strconv.Atoi(ctx.Params("id"))` returns. -/
def groupRoutes.deleteGroup {σ : Type} (r : groupRoutes σ) (st : σ)
    (id : Except String Int) : Response × σ :=
  match id with
  | .error _ => (errorResponse StatusBadRequest "invalid id parameter", st)
  | .ok id =>
    match r.g.GetGroupByID st id with
    | .error _ => (errorResponse StatusNotFound "group not found", st)
    | .ok _ =>
      match r.g.DeleteGroup st id with
      | (.error err, st') =>
        if err = "cannot delete group with subgroups" then
          (errorResponse StatusConflict "cannot delete group with subgroups", st')
        else
          (errorResponse StatusInternalServerError "failed to delete group", st')
      | (.ok (), st') => ({ status := StatusNoContent, body := .empty }, st')

/-- The Go struct `updateGroupRequest`. -/
structure updateGroupRequest where
  Name : String
  ParentID : Option Int
  deriving DecidableEq, Repr

/-- Call `r.v.Struct(request)` for an `updateGroupRequest`: `Name` is `required`
(the tag `required` has no parameter, so the validator itself is not needed). -/
def updateGroupRequest.valid (request : updateGroupRequest) : Bool :=
  decide (request.Name ≠ "")

/-- Handler `groupRoutes.updateGroup` of `PUT /groups/:id`; `id` is what
`strconv.Atoi(ctx.Params("id"))` returns and `parsed` is what
`ctx.BodyParser(&request)` makes of the request body. -/
def groupRoutes.updateGroup {σ : Type} (r : groupRoutes σ) (st : σ)
    (id : Except String Int) (parsed : Except String updateGroupRequest) : Response × σ :=
  match id with
  | .error _ => (errorResponse StatusBadRequest "invalid id parameter", st)
  | .ok id =>
    match parsed with
    | .error _ => (errorResponse StatusBadRequest "invalid request body", st)
    | .ok request =>
      if ¬ request.valid then
        (errorResponse StatusBadRequest "validation failed", st)
      else
        match r.g.GetGroupByID st id with
        | .error _ => (errorResponse StatusNotFound "group not found", st)
        | .ok _ =>
          let group : entity.Group := .mk id request.ParentID request.Name []
          match r.g.UpdateGroup st group with
          | (.error _, st') =>
            (errorResponse StatusInternalServerError "failed to update group", st')
          | (.ok (), st') =>
            match r.g.GetGroupByID st' id with
            | .error _ =>
              (errorResponse StatusInternalServerError
                "group updated but failed to retrieve updated data", st')
            | .ok updatedGroup => ({ status := StatusOK, body := .group updatedGroup }, st')

end v1

/-! ## Example inputs for the student claims -/

namespace v1

/-- A store with the group "Math" and one student of it, whose id column will
next assign 8. -/
def classStore : persistent.Postgres :=
  { groups := [⟨1, "Math", none⟩],
    students := [⟨7, "Bob", "bob@example.com", 1⟩], groupsSeq := 2, studentsSeq := 8,
    fold := persistent.asciiFold }

/-- A stand-in for the check behind the tag `email`: the text holds an `@`. -/
def hasAt : Validate :=
  { email := fun s => s.toList.contains '@' }

/-- The request body `{"name": "Ann", "email": "ann@example.com", "group_id": 1}`. -/
def annRequest : createStudentRequest :=
  { Name := "Ann", Email := "ann@example.com", GroupID := 1 }

end v1

/-! ## The parent graph of a group store -/

namespace persistent

/-- No two rows of the table have the same id. -/
def UniqueIDs (groups : List GroupRow) : Prop :=
  (groups.map GroupRow.ID).Nodup

instance (groups : List GroupRow) : Decidable (UniqueIDs groups) :=
  inferInstanceAs (Decidable (List.Nodup _))

/-- Some row with id `c` names `p` as its parent. -/
def IsChildOf (groups : List GroupRow) (c p : Int) : Prop :=
  ∃ row ∈ groups, row.ID = c ∧ row.ParentID = some p

/-- The id `c` is a descendant of `p`: a chain of parent references leads from `c`
to `p`. -/
def IsDescendantOf (groups : List GroupRow) (c p : Int) : Prop :=
  Relation.TransGen (IsChildOf groups) c p

/-- The parent graph is acyclic: no id is its own ancestor. -/
def Acyclic (groups : List GroupRow) : Prop :=
  ∀ id, ¬ IsDescendantOf groups id id

/-- The ids that descend from `id`. -/
def Descendants (groups : List GroupRow) (id : Int) : Set Int :=
  {c | IsDescendantOf groups c id}

/-- No descendant of `id` lies on a cycle of parent references. -/
def NoCycleBelow (groups : List GroupRow) (id : Int) : Prop :=
  ∀ c, IsDescendantOf groups c id → ¬ IsDescendantOf groups c c

/-- The store of the scenario of the spec: root "Math" (id 1) and "Math/Algebra"
(id 2, parent 1). -/
def mathStore : Postgres :=
  { groups := [⟨1, "Math", none⟩, ⟨2, "Math/Algebra", some 1⟩],
    students := [], groupsSeq := 3, studentsSeq := 1, fold := asciiFold }

/-- A store with two roots: "Math" (id 1) with the subgroups "Algebra" (id 2) and
"Geometry" (id 3), "Algebra" with the subgroup "Linear" (id 4), and "Physics"
(id 5). -/
def treeStore : Postgres :=
  { groups := [⟨1, "Math", none⟩, ⟨2, "Algebra", some 1⟩, ⟨3, "Geometry", some 1⟩,
      ⟨4, "Linear", some 2⟩, ⟨5, "Physics", none⟩],
    students := [], groupsSeq := 6, studentsSeq := 1, fold := asciiFold }

/-- A rank for `treeStore` that falls along every parent reference. -/
def treeRank (id : Int) : Nat :=
  if id = 1 then 2 else if id = 2 then 1 else 0

/-- The name contains the query as a substring when both are put in lower case by
the `LOWER` of the database. -/
def ContainsFold (fold : CaseFold) (name query : String) : Prop :=
  sqlLower fold query <:+: sqlLower fold name

instance (fold : CaseFold) (name query : String) : Decidable (ContainsFold fold name query) :=
  inferInstanceAs (Decidable (_ <:+: _))

/-- A store with the one group "Анна" and one student "Анна" of it, in a database
whose `LOWER` folds Cyrillic letters. -/
def cyrillicStore : Postgres :=
  { groups := [⟨1, "Анна", none⟩], students := [⟨3, "Анна", "anna@example.com", 1⟩],
    groupsSeq := 2, studentsSeq := 4, fold := cyrillicFold }

/-- A store with the one group "abc". -/
def abcStore : Postgres :=
  { groups := [⟨1, "abc", none⟩], students := [], groupsSeq := 2, studentsSeq := 1,
    fold := asciiFold }

/-- A store with the one group "50%". -/
def percentStore : Postgres :=
  { groups := [⟨1, "50%", none⟩], students := [], groupsSeq := 2, studentsSeq := 1,
    fold := asciiFold }

/-- A store in which the student "Ann" refers to the group 99, which does not
exist, and "Bob" to the group "Math". -/
def orphanStore : Postgres :=
  { groups := [⟨1, "Math", none⟩],
    students := [⟨7, "Bob", "bob@example.com", 1⟩, ⟨9, "Ann", "ann@example.com", 99⟩],
    groupsSeq := 2, studentsSeq := 10, fold := asciiFold }

/-- A repository whose `HasSubgroups` always fails, with the very text of the
has-children error as its message. -/
def failingGroupRepo : repo.GroupRepo Postgres :=
  { NewGroupRepo with
    HasSubgroups := fun _ _ => .error "cannot delete group with subgroups" }

/-- The request body `{"name": "Ann", "email": "not-an-email", "group_id": 1}`. -/
def notAnEmailRequest : v1.createStudentRequest :=
  { Name := "Ann", Email := "not-an-email", GroupID := 1 }

/-- A store with unique ids in which "Math" (id 1) is a root with the subgroup "Sub"
(id 6), the groups 2 and 3 name each other as parent, the group 4 names itself, and
the group 5 names the missing id 99. -/
def cycleStore : Postgres :=
  { groups := [⟨1, "Math", none⟩, ⟨2, "A", some 3⟩, ⟨3, "B", some 2⟩, ⟨4, "Self", some 4⟩,
      ⟨5, "Orphan", some 99⟩, ⟨6, "Sub", some 1⟩],
    students := [], groupsSeq := 7, studentsSeq := 1, fold := asciiFold }

/-- A sequence of calls of the service `DeleteGroup` on the PostgreSQL repository,
one per id of the list, each on the store that the call before left; the store
after the last call is returned. -/
def deleteAll (r : Postgres) : List Int → Postgres
  | [] => r
  | id :: ids => deleteAll ((group.New NewGroupRepo).DeleteGroup r id).2 ids

mutual
/-- The ids of all nodes of a tree of groups: the id of the group itself, then the
ids of the nodes of its subgroups. -/
def nodeIDs : entity.Group → List Int
  | .mk id _ _ subGroups => id :: forestIDs subGroups
/-- The ids of all nodes of a list of trees of groups. -/
def forestIDs : List entity.Group → List Int
  | [] => []
  | g :: gs => nodeIDs g ++ forestIDs gs
end

/-- Following the parent references from `id` reaches a group without a parent:
`id` is the id of a row with a null parent reference, or descends from one. -/
def ReachesRoot (groups : List GroupRow) (id : Int) : Prop :=
  ∃ root ∈ groups, root.ParentID = none ∧ (id = root.ID ∨ IsDescendantOf groups id root.ID)

/-- Every parent reference names a group of the store. -/
def NoDangling (groups : List GroupRow) : Prop :=
  ∀ row ∈ groups, ∀ p, row.ParentID = some p → ∃ q ∈ groups, q.ID = p

/-- The ids that `id` descends from. -/
def Ancestors (groups : List GroupRow) (id : Int) : Set Int :=
  {p | IsDescendantOf groups id p}

end persistent

/-! ## Lemmas on the store queries -/

namespace persistent

theorem selectByID_of_unique {groups : List GroupRow} (h : UniqueIDs groups)
    {g : GroupRow} (hg : g ∈ groups) : selectByID groups g.ID = [g] := by
  induction groups with
  | nil => cases hg
  | cons a l ih =>
    have hnd : a.ID ∉ l.map GroupRow.ID ∧ (l.map GroupRow.ID).Nodup := by
      simpa [UniqueIDs] using h
    rcases List.mem_cons.1 hg with rfl | hgl
    · have : l.filter (fun row => decide (row.ID = g.ID)) = [] := by
        apply List.filter_eq_nil_iff.2
        intro row hrow hEq
        exact hnd.1 (List.mem_map.2 ⟨row, hrow, by simpa using hEq⟩)
      simp [selectByID, this]
    · have hne : a.ID ≠ g.ID := fun hEq =>
        hnd.1 (List.mem_map.2 ⟨g, hgl, hEq.symm⟩)
      have := ih hnd.2 hgl
      simpa [selectByID, hne] using this

theorem GetGroupByID_of_unique {r : Postgres} (h : UniqueIDs r.groups)
    {g : GroupRow} (hg : g ∈ r.groups) :
    GroupRepo.GetGroupByID r g.ID = .ok (scanGroup g) := by
  simp [GroupRepo.GetGroupByID, selectByID_of_unique h hg]

theorem HasSubgroups_eq (r : Postgres) (id : Int) :
    GroupRepo.HasSubgroups r id = .ok (decide (∃ c ∈ r.groups, c.ParentID = some id)) := by
  have : (0 < (selectByParent r.groups id).length) ↔ ∃ c ∈ r.groups, c.ParentID = some id := by
    rw [List.length_pos_iff_exists_mem]
    simp [selectByParent, List.mem_filter]
  simp only [GroupRepo.HasSubgroups, gt_iff_lt, Nat.cast_pos]
  congr 1
  exact decide_eq_decide.2 this

end persistent

/-! ## Lemmas on the recursion of the tree builder -/

namespace persistent

theorem isChildOf_of_mem_selectByParent {groups : List GroupRow} {id : Int} {c : GroupRow}
    (hc : c ∈ selectByParent groups id) : IsChildOf groups c.ID id := by
  simp only [selectByParent, List.mem_filter, decide_eq_true_eq] at hc
  exact ⟨c, hc.1, rfl, hc.2⟩

theorem isChildOf_mem_ids {groups : List GroupRow} {c p : Int} (h : IsChildOf groups c p) :
    c ∈ groups.map GroupRow.ID := by
  obtain ⟨row, hrow, hid, _⟩ := h
  exact List.mem_map.2 ⟨row, hrow, hid⟩

theorem isDescendantOf_mem_ids {groups : List GroupRow} {c p : Int}
    (h : IsDescendantOf groups c p) : c ∈ groups.map GroupRow.ID := by
  unfold IsDescendantOf at h
  induction h using Relation.TransGen.head_induction_on with
  | base h => exact isChildOf_mem_ids h
  | ih h _ _ => exact isChildOf_mem_ids h

theorem descendants_finite (groups : List GroupRow) (id : Int) :
    (Descendants groups id).Finite :=
  (List.finite_toSet (groups.map GroupRow.ID)).subset
    (fun _ hc => isDescendantOf_mem_ids hc)

theorem descendants_ncard_le (groups : List GroupRow) (id : Int) :
    (Descendants groups id).ncard ≤ groups.length := by
  have hsub : Descendants groups id ⊆ ((groups.map GroupRow.ID).toFinset : Set Int) := by
    intro c hc
    simpa using isDescendantOf_mem_ids hc
  calc (Descendants groups id).ncard
      ≤ ((groups.map GroupRow.ID).toFinset : Set Int).ncard :=
        Set.ncard_le_ncard hsub (Finset.finite_toSet _)
    _ = (groups.map GroupRow.ID).toFinset.card := Set.ncard_coe_Finset _
    _ ≤ (groups.map GroupRow.ID).length := List.toFinset_card_le _
    _ = groups.length := List.length_map _ _

theorem noCycleBelow_child {groups : List GroupRow} {c p : Int}
    (h : NoCycleBelow groups p) (hc : IsChildOf groups c p) : NoCycleBelow groups c :=
  fun d hd => h d (Relation.TransGen.tail hd hc)

theorem descendants_ncard_lt {groups : List GroupRow} {c p : Int}
    (h : NoCycleBelow groups p) (hc : IsChildOf groups c p) :
    (Descendants groups c).ncard < (Descendants groups p).ncard := by
  apply Set.ncard_lt_ncard _ (descendants_finite groups p)
  refine ⟨fun d hd => Relation.TransGen.tail hd hc, fun hsub => ?_⟩
  have hcp : c ∈ Descendants groups p := Relation.TransGen.single hc
  exact h c hcp (hsub hcp)

theorem GetGroupWithSubgroups_succ (fuel : Nat) (r : Postgres) (id : Int) :
    GroupRepo.GetGroupWithSubgroups (fuel + 1) r id =
      match GroupRepo.GetGroupByID r id with
      | .error err => some (.error err)
      | .ok group =>
        match appendSubgroups (GroupRepo.GetGroupWithSubgroups fuel r)
            (selectByParent r.groups id) group.SubGroups with
        | none => none
        | some (.error err) => some (.error err)
        | some (.ok subGroups) =>
          some (.ok (.mk group.ID group.ParentID group.Name subGroups)) := rfl

theorem GetGroupByID_cases (r : Postgres) (id : Int) :
    ((∀ row ∈ r.groups, row.ID ≠ id) ∧ ∃ err, GroupRepo.GetGroupByID r id = .error err) ∨
    (∃ row, row ∈ r.groups ∧ row.ID = id ∧ (selectByID r.groups id).head? = some row ∧
      GroupRepo.GetGroupByID r id = .ok (scanGroup row)) := by
  unfold GroupRepo.GetGroupByID
  cases hsel : selectByID r.groups id with
  | nil =>
    left
    refine ⟨fun row hrow hid => ?_, _, rfl⟩
    have : row ∈ selectByID r.groups id := by
      simp [selectByID, List.mem_filter, hrow, hid]
    rw [hsel] at this
    cases this
  | cons row rest =>
    right
    have hmem : row ∈ selectByID r.groups id := by rw [hsel]; exact List.mem_cons_self _ _
    simp only [selectByID, List.mem_filter, decide_eq_true_eq] at hmem
    exact ⟨row, hmem.1, hmem.2, rfl, rfl⟩

theorem appendSubgroups_mono {f g : Int → Option (Except String entity.Group)}
    (h : ∀ i x, f i = some x → g i = some x) (rows : List GroupRow) :
    ∀ (acc : List entity.Group) (res : Except String (List entity.Group)),
      appendSubgroups f rows acc = some res → appendSubgroups g rows acc = some res := by
  induction rows with
  | nil => intro acc res hres; simpa [appendSubgroups] using hres
  | cons row rows ih =>
    intro acc res hres
    cases hf : f row.ID with
    | none => simp [appendSubgroups, hf] at hres
    | some x =>
      have hg := h _ _ hf
      cases x with
      | error err =>
        simp only [appendSubgroups, hf] at hres
        simp only [appendSubgroups, hg]
        exact hres
      | ok full =>
        simp only [appendSubgroups, hf] at hres
        simp only [appendSubgroups, hg]
        exact ih _ _ hres

theorem GetGroupWithSubgroups_mono_succ (r : Postgres) (fuel : Nat) :
    ∀ (id : Int) (res : Except String entity.Group),
      GroupRepo.GetGroupWithSubgroups fuel r id = some res →
      GroupRepo.GetGroupWithSubgroups (fuel + 1) r id = some res := by
  induction fuel with
  | zero => intro id res h; simp [GroupRepo.GetGroupWithSubgroups] at h
  | succ n ih =>
    intro id res h
    rw [GetGroupWithSubgroups_succ] at h ⊢
    cases hget : GroupRepo.GetGroupByID r id with
    | error err => simpa [hget] using h
    | ok group =>
      simp only [hget] at h ⊢
      cases happ : appendSubgroups (GroupRepo.GetGroupWithSubgroups n r)
          (selectByParent r.groups id) group.SubGroups with
      | none => simp [happ] at h
      | some out =>
        have := appendSubgroups_mono ih _ _ _ happ
        simp only [happ] at h
        simp only [this]
        exact h

theorem GetGroupWithSubgroups_mono (r : Postgres) {fuel fuel' : Nat} (hle : fuel ≤ fuel')
    {id : Int} {res : Except String entity.Group}
    (h : GroupRepo.GetGroupWithSubgroups fuel r id = some res) :
    GroupRepo.GetGroupWithSubgroups fuel' r id = some res := by
  induction hle with
  | refl => exact h
  | step _ ih => exact GetGroupWithSubgroups_mono_succ r _ _ _ ih

theorem appendSubgroups_isSome {f : Int → Option (Except String entity.Group)}
    (rows : List GroupRow) (h : ∀ row ∈ rows, (f row.ID).isSome) :
    ∀ acc : List entity.Group, (appendSubgroups f rows acc).isSome := by
  induction rows with
  | nil => intro acc; simp [appendSubgroups]
  | cons row rows ih =>
    intro acc
    have hrow := h row (List.mem_cons_self _ _)
    cases hf : f row.ID with
    | none => simp [hf] at hrow
    | some x =>
      cases x with
      | error err => simp [appendSubgroups, hf]
      | ok full =>
        simp only [appendSubgroups, hf]
        exact ih (fun row' hrow' => h row' (List.mem_cons_of_mem _ hrow')) _

theorem GetGroupWithSubgroups_isSome (r : Postgres) (fuel : Nat) :
    ∀ id : Int, NoCycleBelow r.groups id → (Descendants r.groups id).ncard < fuel →
      (GroupRepo.GetGroupWithSubgroups fuel r id).isSome := by
  induction fuel with
  | zero => intro id _ h; simp at h
  | succ n ih =>
    intro id hno hlt
    rw [GetGroupWithSubgroups_succ]
    cases hget : GroupRepo.GetGroupByID r id with
    | error err => simp
    | ok group =>
      have hsome : (appendSubgroups (GroupRepo.GetGroupWithSubgroups n r)
          (selectByParent r.groups id) group.SubGroups).isSome := by
        apply appendSubgroups_isSome
        intro c hc
        have hchild := isChildOf_of_mem_selectByParent hc
        exact ih c.ID (noCycleBelow_child hno hchild)
          (by have := descendants_ncard_lt hno hchild; omega)
      cases happ : appendSubgroups (GroupRepo.GetGroupWithSubgroups n r)
          (selectByParent r.groups id) group.SubGroups with
      | none => simp [happ] at hsome
      | some out => cases out <;> simp [happ]

theorem appendSubgroups_ok_inv {f : Int → Option (Except String entity.Group)}
    (rows : List GroupRow) :
    ∀ (acc out : List entity.Group), appendSubgroups f rows acc = some (.ok out) →
      ∃ subs, out = acc ++ subs ∧
        List.Forall₂ (fun c sub => f c.ID = some (.ok sub)) rows subs := by
  induction rows with
  | nil =>
    intro acc out h
    simp only [appendSubgroups, Option.some.injEq, Except.ok.injEq] at h
    exact ⟨[], by simp [h], List.Forall₂.nil⟩
  | cons row rows ih =>
    intro acc out h
    cases hf : f row.ID with
    | none => simp [appendSubgroups, hf] at h
    | some x =>
      cases x with
      | error err => simp [appendSubgroups, hf] at h
      | ok full =>
        simp only [appendSubgroups, hf] at h
        obtain ⟨subs, hout, hall⟩ := ih _ _ h
        exact ⟨full :: subs, by simp [hout], List.Forall₂.cons hf hall⟩

theorem appendSubgroups_ok_of {f : Int → Option (Except String entity.Group)}
    (rows : List GroupRow)
    (h : ∀ row ∈ rows, ∀ x, f row.ID = some x → ∃ full, x = .ok full) :
    ∀ (acc : List entity.Group) (res : Except String (List entity.Group)),
      appendSubgroups f rows acc = some res → ∃ out, res = .ok out := by
  induction rows with
  | nil =>
    intro acc res hres
    simp only [appendSubgroups, Option.some.injEq] at hres
    exact ⟨acc, hres.symm⟩
  | cons row rows ih =>
    intro acc res hres
    cases hf : f row.ID with
    | none => simp [appendSubgroups, hf] at hres
    | some x =>
      obtain ⟨full, rfl⟩ := h row (List.mem_cons_self _ _) x hf
      simp only [appendSubgroups, hf] at hres
      exact ih (fun row' hrow' => h row' (List.mem_cons_of_mem _ hrow')) _ _ hres

theorem GetGroupWithSubgroups_ok_of_mem (r : Postgres) (fuel : Nat) :
    ∀ id : Int, (∃ row ∈ r.groups, row.ID = id) →
      ∀ res, GroupRepo.GetGroupWithSubgroups fuel r id = some res → ∃ full, res = .ok full := by
  induction fuel with
  | zero => intro id _ res h; simp [GroupRepo.GetGroupWithSubgroups] at h
  | succ n ih =>
    intro id hex res h
    rw [GetGroupWithSubgroups_succ] at h
    rcases GetGroupByID_cases r id with ⟨hnone, _⟩ | ⟨row, _, _, _, hget⟩
    · obtain ⟨row, hrow, hid⟩ := hex
      exact absurd hid (hnone row hrow)
    · simp only [hget] at h
      cases happ : appendSubgroups (GroupRepo.GetGroupWithSubgroups n r)
          (selectByParent r.groups id) (scanGroup row).SubGroups with
      | none => simp [happ] at h
      | some out =>
        have hok := appendSubgroups_ok_of (selectByParent r.groups id)
          (fun c hc x hx => ih c.ID
            ⟨c, (List.mem_filter.1 hc).1, rfl⟩ x hx) _ _ happ
        obtain ⟨subs, rfl⟩ := hok
        simp only [happ, Option.some.injEq] at h
        exact ⟨_, h.symm⟩

theorem GetGroupWithSubgroups_ok_inv {r : Postgres} {fuel : Nat} {id : Int}
    {full : entity.Group}
    (h : GroupRepo.GetGroupWithSubgroups (fuel + 1) r id = some (.ok full)) :
    ∃ row subs, row ∈ r.groups ∧ row.ID = id ∧
      (selectByID r.groups id).head? = some row ∧
      full = .mk row.ID row.ParentID row.Name subs ∧
      List.Forall₂ (fun c sub => GroupRepo.GetGroupWithSubgroups fuel r c.ID = some (.ok sub))
        (selectByParent r.groups id) subs := by
  rw [GetGroupWithSubgroups_succ] at h
  rcases GetGroupByID_cases r id with ⟨_, err, hget⟩ | ⟨row, hrow, hid, hhead, hget⟩
  · simp [hget] at h
  · simp only [hget] at h
    cases happ : appendSubgroups (GroupRepo.GetGroupWithSubgroups fuel r)
        (selectByParent r.groups id) (scanGroup row).SubGroups with
    | none => simp [happ] at h
    | some out =>
      cases out with
      | error err => simp [happ] at h
      | ok subs =>
        simp only [happ, Option.some.injEq, Except.ok.injEq] at h
        obtain ⟨subs', hsubs, hall⟩ := appendSubgroups_ok_inv _ _ _ happ
        have hsubs' : subs = subs' := by simpa [scanGroup, entity.Group.SubGroups] using hsubs
        subst hsubs'
        exact ⟨row, subs, hrow, hid, hhead, by
          rw [← h]; simp [scanGroup, entity.Group.ID, entity.Group.ParentID, entity.Group.Name],
          hall⟩

/-- The tree builder on an existing id below which no group lies on a cycle: with
any fuel above the number of rows it returns the first row of that id, and its
subgroups are, in the order of the store, the results for the rows that name the
id as parent. -/
theorem GetGroupWithSubgroups_spec {r : Postgres} {id : Int}
    (hno : NoCycleBelow r.groups id) (hex : ∃ row ∈ r.groups, row.ID = id) :
    ∃ row subs, row ∈ r.groups ∧ row.ID = id ∧
      (selectByID r.groups id).head? = some row ∧
      (∀ fuel, r.groups.length < fuel → GroupRepo.GetGroupWithSubgroups fuel r id =
        some (.ok (.mk row.ID row.ParentID row.Name subs))) ∧
      List.Forall₂ (fun c sub => ∀ fuel, r.groups.length < fuel →
          GroupRepo.GetGroupWithSubgroups fuel r c.ID = some (.ok sub))
        (selectByParent r.groups id) subs := by
  have hlt : (Descendants r.groups id).ncard < r.groups.length + 1 :=
    Nat.lt_succ_of_le (descendants_ncard_le _ _)
  have hsome := GetGroupWithSubgroups_isSome r _ id hno hlt
  obtain ⟨res, hres⟩ := Option.isSome_iff_exists.1 hsome
  obtain ⟨full, rfl⟩ := GetGroupWithSubgroups_ok_of_mem r _ id hex res hres
  obtain ⟨row, subs, hrow, hid, hhead, rfl, hall⟩ := GetGroupWithSubgroups_ok_inv hres
  refine ⟨row, subs, hrow, hid, hhead, fun fuel hfuel =>
    GetGroupWithSubgroups_mono r hfuel hres, ?_⟩
  exact hall.imp (fun _ _ hc fuel hfuel => GetGroupWithSubgroups_mono r (Nat.le_of_lt hfuel) hc)

theorem appendSubgroups_of_forall₂ {f : Int → Option (Except String entity.Group)}
    {rows : List GroupRow} {subs : List entity.Group}
    (h : List.Forall₂ (fun c sub => f c.ID = some (.ok sub)) rows subs) :
    ∀ acc : List entity.Group, appendSubgroups f rows acc = some (.ok (acc ++ subs)) := by
  induction h with
  | nil => intro acc; simp [appendSubgroups]
  | cons hc _ ih =>
    intro acc
    simp only [appendSubgroups, hc]
    rw [ih]
    simp

theorem exists_forall₂_of_forall_exists {α β : Type} {P : α → β → Prop} :
    ∀ l : List α, (∀ a ∈ l, ∃ b, P a b) → ∃ l' : List β, List.Forall₂ P l l' := by
  intro l
  induction l with
  | nil => intro _; exact ⟨[], List.Forall₂.nil⟩
  | cons a l ih =>
    intro h
    obtain ⟨b, hb⟩ := h a (List.mem_cons_self _ _)
    obtain ⟨l', hl'⟩ := ih (fun a' ha' => h a' (List.mem_cons_of_mem _ ha'))
    exact ⟨b :: l', List.Forall₂.cons hb hl'⟩

theorem map_eq_of_forall₂ {α β γ : Type} {f : α → γ} {g : β → γ} {l : List α} {l' : List β}
    (h : List.Forall₂ (fun a b => g b = f a) l l') : l'.map g = l.map f := by
  induction h with
  | nil => rfl
  | cons hab _ ih => simp [hab, ih]

theorem eq_of_unique {groups : List GroupRow} (h : UniqueIDs groups) {a b : GroupRow}
    (ha : a ∈ groups) (hb : b ∈ groups) (hid : a.ID = b.ID) : a = b :=
  List.inj_on_of_nodup_map h ha hb hid

theorem isChildOf_functional {groups : List GroupRow} (h : UniqueIDs groups) {c p p' : Int}
    (hp : IsChildOf groups c p) (hp' : IsChildOf groups c p') : p = p' := by
  obtain ⟨row, hrow, hid, hpar⟩ := hp
  obtain ⟨row', hrow', hid', hpar'⟩ := hp'
  have := eq_of_unique h hrow hrow' (hid.trans hid'.symm)
  subst this
  rw [hpar] at hpar'
  exact Option.some.inj hpar'

theorem transGen_cycle_absorbs {α : Type} {R : α → α → Prop}
    (hfun : ∀ a b c, R a b → R a c → b = c) {a b : α}
    (hcyc : Relation.TransGen R a a) (hab : Relation.TransGen R a b) :
    Relation.TransGen R b a := by
  have step : ∀ x y, Relation.TransGen R x a → R x y → Relation.TransGen R y a := by
    intro x y hxa hxy
    obtain ⟨z, hxz, hza⟩ := Relation.TransGen.head'_iff.1 hxa
    have hzy : z = y := hfun _ _ _ hxz hxy
    subst hzy
    rcases Relation.reflTransGen_iff_eq_or_transGen.1 hza with heq | htrans
    · subst heq; exact hcyc
    · exact htrans
  induction hab with
  | single h => exact step _ _ hcyc h
  | tail _ hbc ih => exact step _ _ ih hbc

theorem noCycleBelow_root {groups : List GroupRow} (h : UniqueIDs groups) {root : GroupRow}
    (hroot : root ∈ groups) (hnull : root.ParentID = none) :
    NoCycleBelow groups root.ID := by
  intro c hdesc hcyc
  have hback : Relation.TransGen (IsChildOf groups) root.ID c :=
    @transGen_cycle_absorbs Int (IsChildOf groups)
      (fun _ _ _ h1 h2 => isChildOf_functional h h1 h2) c root.ID hcyc hdesc
  obtain ⟨p, ⟨row, hrow, hid, hpar⟩, _⟩ := Relation.TransGen.head'_iff.1 hback
  have := eq_of_unique h hrow hroot hid
  subst this
  rw [hnull] at hpar
  cases hpar

theorem acyclic_of_rank {groups : List GroupRow} (rank : Int → Nat)
    (h : ∀ row ∈ groups, ∀ p, row.ParentID = some p → rank row.ID < rank p) :
    Acyclic groups := by
  have hlt : ∀ c p, IsDescendantOf groups c p → rank c < rank p := by
    intro c p hcp
    unfold IsDescendantOf at hcp
    induction hcp with
    | single hc =>
      obtain ⟨row, hrow, hid, hpar⟩ := hc
      rw [← hid]; exact h row hrow _ hpar
    | tail _ hc ih =>
      obtain ⟨row, hrow, hid, hpar⟩ := hc
      have := h row hrow _ hpar
      rw [hid] at this
      exact lt_trans ih this
  intro id hid
  exact lt_irrefl _ (hlt id id hid)

theorem noCycleBelow_of_acyclic {groups : List GroupRow} (h : Acyclic groups) (id : Int) :
    NoCycleBelow groups id :=
  fun c _ => h c

end persistent

/-! ## Claims on deleting a group -/

section DeleteClaims

open persistent

/-- C1: when some group of the store names `g` as its parent, the service
`DeleteGroup(g.ID)` fails with the error "cannot delete group with subgroups" and
returns the store as it was, whatever the repository's `DeleteGroup` would do (so
that method is not called); `GetGroupByID(g.ID)` answers on the resulting store
what it answered before, which for a store with unique ids is `g` itself with its
name and parent reference. -/
theorem delete_group_with_subgroups_refused (r : Postgres) (g c : GroupRow)
    (hg : g ∈ r.groups) (hc : c ∈ r.groups) (hpar : c.ParentID = some g.ID)
    (del : Postgres → Int → Except String Unit × Postgres) :
    (group.New { NewGroupRepo with DeleteGroup := del }).DeleteGroup r g.ID
        = (.error "cannot delete group with subgroups", r)
      ∧ (group.New NewGroupRepo).DeleteGroup r g.ID
        = (.error "cannot delete group with subgroups", r)
      ∧ g ∈ ((group.New NewGroupRepo).DeleteGroup r g.ID).2.groups
      ∧ (group.New NewGroupRepo).GetGroupByID
          ((group.New NewGroupRepo).DeleteGroup r g.ID).2 g.ID
        = (group.New NewGroupRepo).GetGroupByID r g.ID
      ∧ (UniqueIDs r.groups →
          (group.New NewGroupRepo).GetGroupByID
            ((group.New NewGroupRepo).DeleteGroup r g.ID).2 g.ID
          = .ok (.mk g.ID g.ParentID g.Name [])) := by
  have hex : ∃ c ∈ r.groups, c.ParentID = some g.ID := ⟨c, hc, hpar⟩
  have h1 : ∀ del', (group.New { NewGroupRepo with DeleteGroup := del' }).DeleteGroup r g.ID
      = (.error "cannot delete group with subgroups", r) := by
    intro del'
    simp [group.UseCase.DeleteGroup, group.New, NewGroupRepo, HasSubgroups_eq, hex]
  have h2 : (group.New NewGroupRepo).DeleteGroup r g.ID
      = (.error "cannot delete group with subgroups", r) := h1 GroupRepo.DeleteGroup
  refine ⟨h1 del, h2, ?_, ?_, ?_⟩
  · rw [h2]; exact hg
  · rw [h2]
  · intro hu
    rw [h2]
    simp [group.UseCase.GetGroupByID, group.New, NewGroupRepo,
      GetGroupByID_of_unique hu hg, scanGroup]

/-- Witness of C1 on the store of the scenario: deleting "Math" while
"Math/Algebra" names it as parent. -/
theorem delete_group_with_subgroups_refused_witness :
    (group.New NewGroupRepo).DeleteGroup mathStore 1
        = (.error "cannot delete group with subgroups", mathStore)
      ∧ (group.New NewGroupRepo).GetGroupByID
          ((group.New NewGroupRepo).DeleteGroup mathStore 1).2 1
        = .ok (.mk 1 none "Math" []) :=
  have h := delete_group_with_subgroups_refused mathStore ⟨1, "Math", none⟩
    ⟨2, "Math/Algebra", some 1⟩ (by decide) (by decide) rfl GroupRepo.DeleteGroup
  ⟨h.2.1, h.2.2.2.2 (by decide)⟩

/-- C2: when `g` is in the store and no group names it as its parent, the service
`DeleteGroup(g.ID)` succeeds and removes exactly the rows with the id of `g`; on the
resulting store `GetGroupByID(g.ID)` fails with the wrapped "no rows in result set",
every row with another id is still there, `GetGroupByID` answers for every other id
what it answered before, and the students are untouched. -/
theorem delete_group_without_subgroups (r : Postgres) (g : GroupRow)
    (_hg : g ∈ r.groups) (hleaf : ∀ c ∈ r.groups, c.ParentID ≠ some g.ID) :
    (group.New NewGroupRepo).DeleteGroup r g.ID
        = (.ok (), { r with groups := r.groups.filter (fun row => ¬ row.ID = g.ID) })
      ∧ (group.New NewGroupRepo).GetGroupByID
          ((group.New NewGroupRepo).DeleteGroup r g.ID).2 g.ID
        = .error ("GroupUseCase - GetGroupByID - uc.repo.GetGroupByID: " ++
            "GroupRepo - GetGroupByID - r.Pool.QueryRow: no rows in result set")
      ∧ (∀ row, row ∈ ((group.New NewGroupRepo).DeleteGroup r g.ID).2.groups ↔
          row ∈ r.groups ∧ row.ID ≠ g.ID)
      ∧ (∀ id, id ≠ g.ID →
          (group.New NewGroupRepo).GetGroupByID
            ((group.New NewGroupRepo).DeleteGroup r g.ID).2 id
          = (group.New NewGroupRepo).GetGroupByID r id)
      ∧ ((group.New NewGroupRepo).DeleteGroup r g.ID).2.students = r.students := by
  have hno : ¬ ∃ c ∈ r.groups, c.ParentID = some g.ID := by
    rintro ⟨c, hc, hp⟩
    exact hleaf c hc hp
  have h1 : (group.New NewGroupRepo).DeleteGroup r g.ID
      = (.ok (), { r with groups := r.groups.filter (fun row => ¬ row.ID = g.ID) }) := by
    simp [group.UseCase.DeleteGroup, group.New, NewGroupRepo, HasSubgroups_eq, hno,
      GroupRepo.DeleteGroup]
  refine ⟨h1, ?_, ?_, ?_, ?_⟩
  · rw [h1]
    have : selectByID (r.groups.filter (fun row => ¬ row.ID = g.ID)) g.ID = [] := by
      simp only [selectByID, List.filter_filter]
      apply List.filter_eq_nil_iff.2
      intro row _
      simp
    simp only [group.UseCase.GetGroupByID, group.New, NewGroupRepo, GroupRepo.GetGroupByID,
      this, ErrNoRows]
    rfl
  · intro row
    rw [h1]
    simp [List.mem_filter]
  · intro id hid
    rw [h1]
    have : selectByID (r.groups.filter (fun row => ¬ row.ID = g.ID)) id
        = selectByID r.groups id := by
      simp only [selectByID, List.filter_filter]
      apply List.filter_congr
      intro row _
      by_cases hrow : row.ID = id
      · simp [hrow, hid]
      · simp [hrow]
    simp only [group.UseCase.GetGroupByID, group.New, NewGroupRepo, GroupRepo.GetGroupByID,
      this]
  · rw [h1]

/-- Witness of C2 on the store of the scenario: deleting the leaf "Math/Algebra". -/
theorem delete_group_without_subgroups_witness :
    (group.New NewGroupRepo).DeleteGroup mathStore 2
        = (.ok (), { mathStore with groups := [⟨1, "Math", none⟩] })
      ∧ (group.New NewGroupRepo).GetGroupByID
          ((group.New NewGroupRepo).DeleteGroup mathStore 2).2 2
        = .error ("GroupUseCase - GetGroupByID - uc.repo.GetGroupByID: " ++
            "GroupRepo - GetGroupByID - r.Pool.QueryRow: no rows in result set") :=
  have h := delete_group_without_subgroups mathStore ⟨2, "Math/Algebra", some 1⟩
    (by decide) (by decide)
  ⟨h.1, h.2.1⟩

end DeleteClaims

/-! ## Claims on the tree builder -/

section TreeClaims

open persistent

/-- C3: in a store with unique ids and an acyclic parent graph, for a group `g` of
the store, `GetGroupWithSubgroups(g.ID)` returns (with any fuel above the number of
rows) the id, parent reference and name of `g`, and its `SubGroups` are exactly the
results of `GetGroupWithSubgroups` for the rows whose parent reference is `g.ID`,
in the order of the store: the ids of the subgroups are the ids of those rows, none
repeated, and a row of the store has its id among them exactly when it names
`g.ID` as parent. -/
theorem get_group_with_subgroups_tree (r : Postgres) (hu : UniqueIDs r.groups)
    (ha : Acyclic r.groups) (g : GroupRow) (hg : g ∈ r.groups) :
    ∃ subs : List entity.Group,
      (∀ fuel, r.groups.length < fuel → GroupRepo.GetGroupWithSubgroups fuel r g.ID =
        some (.ok (.mk g.ID g.ParentID g.Name subs))) ∧
      List.Forall₂ (fun c sub => ∀ fuel, r.groups.length < fuel →
          GroupRepo.GetGroupWithSubgroups fuel r c.ID = some (.ok sub))
        (selectByParent r.groups g.ID) subs ∧
      subs.map entity.Group.ID = (selectByParent r.groups g.ID).map GroupRow.ID ∧
      (subs.map entity.Group.ID).Nodup ∧
      (∀ c ∈ r.groups, c.ID ∈ subs.map entity.Group.ID ↔ c.ParentID = some g.ID) := by
  obtain ⟨row, subs, hrow, hid, _, hres, hall⟩ :=
    GetGroupWithSubgroups_spec (noCycleBelow_of_acyclic ha g.ID) ⟨g, hg, rfl⟩
  have hrg : row = g := eq_of_unique hu hrow hg hid
  subst hrg
  have hids : subs.map entity.Group.ID = (selectByParent r.groups row.ID).map GroupRow.ID := by
    apply map_eq_of_forall₂
    refine hall.imp (fun c sub hc => ?_)
    obtain ⟨row', subs', _, hid', _, hfull, _⟩ :=
      GetGroupWithSubgroups_ok_inv (hc (r.groups.length + 1) (Nat.lt_succ_self _))
    rw [hfull]
    exact hid'
  have hsub : ((selectByParent r.groups row.ID).map GroupRow.ID).Nodup :=
    List.Nodup.sublist (List.Sublist.map _ (List.filter_sublist _)) hu
  refine ⟨subs, hres, hall, hids, hids ▸ hsub, ?_⟩
  intro c hc
  rw [hids, List.mem_map]
  constructor
  · rintro ⟨c', hc', hcid⟩
    have hcm := List.mem_filter.1 hc'
    have := eq_of_unique hu hcm.1 hc hcid
    subst this
    simpa using hcm.2
  · intro hpar
    exact ⟨c, List.mem_filter.2 ⟨hc, by simpa using hpar⟩, rfl⟩

/-- Witness of C3 on `treeStore`: the subtree of "Math" holds "Algebra" (with
"Linear" below it) and "Geometry", in this order. -/
theorem get_group_with_subgroups_tree_witness :
    UniqueIDs treeStore.groups ∧ Acyclic treeStore.groups ∧
    GroupRepo.GetGroupWithSubgroups 6 treeStore 1 =
      some (.ok (.mk 1 none "Math"
        [.mk 2 (some 1) "Algebra" [.mk 4 (some 2) "Linear" []],
         .mk 3 (some 1) "Geometry" []])) ∧
    ∃ subs : List entity.Group,
      (∀ fuel, 5 < fuel → GroupRepo.GetGroupWithSubgroups fuel treeStore 1 =
        some (.ok (.mk 1 none "Math" subs))) ∧
      subs.map entity.Group.ID = [2, 3] := by
  have hu : UniqueIDs treeStore.groups := by decide
  have ha : Acyclic treeStore.groups :=
    acyclic_of_rank treeRank (by simp [treeStore, treeRank])
  refine ⟨hu, ha, rfl, ?_⟩
  obtain ⟨subs, h1, _, h3, _⟩ :=
    get_group_with_subgroups_tree treeStore hu ha ⟨1, "Math", none⟩ (by decide)
  exact ⟨subs, h1, h3⟩

/-- C4: in a store whose parent graph is acyclic, `GetGroupWithSubgroups(id)`
terminates for every id: the number of descendants of `id` is at most the number of
rows, it is strictly smaller for every row that names `id` as parent (so it
decreases along the recursion), and any fuel above it yields one and the same
result.  (Unique ids are not needed for this.) -/
theorem get_group_with_subgroups_terminates (r : Postgres) (ha : Acyclic r.groups)
    (id : Int) :
    (∃ res, ∀ fuel, (Descendants r.groups id).ncard < fuel →
        GroupRepo.GetGroupWithSubgroups fuel r id = some res) ∧
      (Descendants r.groups id).ncard ≤ r.groups.length ∧
      (∀ c ∈ selectByParent r.groups id,
        (Descendants r.groups c.ID).ncard < (Descendants r.groups id).ncard) := by
  have hno := noCycleBelow_of_acyclic ha id
  refine ⟨?_, descendants_ncard_le _ _, fun c hc =>
    descendants_ncard_lt hno (isChildOf_of_mem_selectByParent hc)⟩
  have hsome := GetGroupWithSubgroups_isSome r _ id hno (Nat.lt_succ_self _)
  obtain ⟨res, hres⟩ := Option.isSome_iff_exists.1 hsome
  exact ⟨res, fun fuel hfuel => GetGroupWithSubgroups_mono r hfuel hres⟩

/-- Witness of C4 on `treeStore`, for the id of "Math" and for an id that names no
group. -/
theorem get_group_with_subgroups_terminates_witness :
    Acyclic treeStore.groups ∧
    (∃ res, ∀ fuel, (Descendants treeStore.groups 1).ncard < fuel →
        GroupRepo.GetGroupWithSubgroups fuel treeStore 1 = some res) ∧
    (∃ res, ∀ fuel, (Descendants treeStore.groups 9).ncard < fuel →
        GroupRepo.GetGroupWithSubgroups fuel treeStore 9 = some res) :=
  have ha : Acyclic treeStore.groups :=
    acyclic_of_rank treeRank (by simp [treeStore, treeRank])
  ⟨ha, (get_group_with_subgroups_terminates treeStore ha 1).1,
    (get_group_with_subgroups_terminates treeStore ha 9).1⟩

/-- Counterexample to C5 on the store of the scenario: the service `GetGroupByID(1)`
(and so `GET /groups/1`) returns "Math" with no subgroup at all, while
`GetGroupWithSubgroups(1)` returns it with the subgroup of id 2. -/
theorem get_group_by_id_subtree_counterexample :
    (group.New NewGroupRepo).GetGroupByID mathStore 1 = .ok (.mk 1 none "Math" []) ∧
    (v1.groupRoutes.mk (group.New NewGroupRepo)).getGroupByID mathStore (.ok 1) =
      { status := 200, body := .group (.mk 1 none "Math" []) } ∧
    GroupRepo.GetGroupWithSubgroups 2 mathStore 1 =
      some (.ok (.mk 1 none "Math" [.mk 2 (some 1) "Math/Algebra" []])) ∧
    ¬ (∃ got full fuel, (group.New NewGroupRepo).GetGroupByID mathStore 1 = .ok got ∧
        GroupRepo.GetGroupWithSubgroups fuel mathStore 1 = some (.ok full) ∧
        got.SubGroups = full.SubGroups) := by
  refine ⟨rfl, rfl, rfl, ?_⟩
  rintro ⟨got, full, fuel, hgot, hfull, heq⟩
  have hgot' : got = .mk 1 none "Math" [] := by
    have h : (group.New NewGroupRepo).GetGroupByID mathStore 1 = .ok (.mk 1 none "Math" []) :=
      rfl
    rw [h] at hgot
    exact (Except.ok.inj hgot).symm
  have h2 : GroupRepo.GetGroupWithSubgroups 2 mathStore 1 =
      some (.ok (.mk 1 none "Math" [.mk 2 (some 1) "Math/Algebra" []])) := rfl
  have hfull' : full = .mk 1 none "Math" [.mk 2 (some 1) "Math/Algebra" []] := by
    rcases Nat.lt_or_ge fuel 2 with hlt | hge
    · have hfuel : fuel = 0 ∨ fuel = 1 := by omega
      rcases hfuel with rfl | rfl
      · simp [GroupRepo.GetGroupWithSubgroups] at hfull
      · have h1 : GroupRepo.GetGroupWithSubgroups 1 mathStore 1 = none := rfl
        rw [h1] at hfull
        cases hfull
    · have := GetGroupWithSubgroups_mono mathStore hge h2
      rw [this] at hfull
      exact (Except.ok.inj (Option.some.inj hfull)).symm
  subst hgot' hfull'
  simp [entity.Group.SubGroups] at heq

/-- C5 as amended: for a group `g` of the store, the service `GetGroupByID(g.ID)`
returns the first row of that id (which is `g` when ids are unique) as a flat
group, with an empty `SubGroups` list, and `GET /groups/{id}` serves that value
with status 200. -/
theorem get_group_by_id_flat (r : Postgres) (g : GroupRow) (hg : g ∈ r.groups) :
    ∃ row, row ∈ r.groups ∧ row.ID = g.ID ∧ (UniqueIDs r.groups → row = g) ∧
      (group.New NewGroupRepo).GetGroupByID r g.ID =
        .ok (.mk row.ID row.ParentID row.Name []) ∧
      (v1.groupRoutes.mk (group.New NewGroupRepo)).getGroupByID r (.ok g.ID) =
        { status := 200, body := .group (.mk row.ID row.ParentID row.Name []) } := by
  rcases GetGroupByID_cases r g.ID with ⟨hnone, _⟩ | ⟨row, hrow, hid, _, hget⟩
  · exact absurd rfl (hnone g hg)
  · have huc : (group.New NewGroupRepo).GetGroupByID r g.ID =
        .ok (.mk row.ID row.ParentID row.Name []) := by
      simp [group.UseCase.GetGroupByID, group.New, NewGroupRepo, hget, scanGroup]
    refine ⟨row, hrow, hid, fun hu => eq_of_unique hu hrow hg hid, huc, ?_⟩
    simp only [v1.groupRoutes.getGroupByID, huc, v1.StatusOK]

/-- Witness of the amended C5 on `treeStore`: "Math" is served without its two
subgroups. -/
theorem get_group_by_id_flat_witness :
    ∃ row, row ∈ treeStore.groups ∧ row.ID = 1 ∧
      (group.New NewGroupRepo).GetGroupByID treeStore 1 =
        .ok (.mk row.ID row.ParentID row.Name []) := by
  obtain ⟨row, h1, h2, _, h4, _⟩ :=
    get_group_by_id_flat treeStore ⟨1, "Math", none⟩ (by decide)
  exact ⟨row, h1, h2, h4⟩

/-- C6: in a store with unique ids the service `GetGroups()` returns (with any fuel
above the number of rows) one entry per row without a parent reference, in the
order of the store, each entry being the result of `GetGroupWithSubgroups` for that
row's id and carrying the row's id and name; no id is listed twice, and a row of
the store has its id among the entries exactly when its parent reference is
null. -/
theorem get_groups_forest (r : Postgres) (hu : UniqueIDs r.groups) :
    ∃ forest : List entity.Group,
      (∀ fuel, r.groups.length < fuel →
        (group.New NewGroupRepo).GetGroups fuel r = some (.ok forest)) ∧
      List.Forall₂ (fun root full =>
          (∀ fuel, r.groups.length < fuel →
            GroupRepo.GetGroupWithSubgroups fuel r root.ID = some (.ok full)) ∧
          full.ID = root.ID ∧ full.Name = root.Name ∧ full.ParentID = none)
        (selectRoots r.groups) forest ∧
      forest.map entity.Group.ID = (selectRoots r.groups).map GroupRow.ID ∧
      (forest.map entity.Group.ID).Nodup ∧
      (∀ row ∈ r.groups, row.ID ∈ forest.map entity.Group.ID ↔ row.ParentID = none) := by
  have hroots : ∀ root ∈ selectRoots r.groups, ∃ full : entity.Group,
      (∀ fuel, r.groups.length < fuel →
        GroupRepo.GetGroupWithSubgroups fuel r root.ID = some (.ok full)) ∧
      full.ID = root.ID ∧ full.Name = root.Name ∧ full.ParentID = none := by
    intro root hroot
    have hmem := List.mem_filter.1 hroot
    have hnull : root.ParentID = none := by simpa using hmem.2
    obtain ⟨row, subs, hrow, hid, _, hres, _⟩ :=
      GetGroupWithSubgroups_spec (noCycleBelow_root hu hmem.1 hnull) ⟨root, hmem.1, rfl⟩
    have := eq_of_unique hu hrow hmem.1 hid
    subst this
    exact ⟨_, hres, rfl, rfl, hnull⟩
  obtain ⟨forest, hforest⟩ := exists_forall₂_of_forall_exists _ hroots
  have hids : forest.map entity.Group.ID = (selectRoots r.groups).map GroupRow.ID :=
    map_eq_of_forall₂ (hforest.imp (fun _ _ h => h.2.1))
  have hnd : ((selectRoots r.groups).map GroupRow.ID).Nodup :=
    List.Nodup.sublist (List.Sublist.map _ (List.filter_sublist _)) hu
  refine ⟨forest, ?_, hforest, hids, hids ▸ hnd, ?_⟩
  · intro fuel hfuel
    have happ := appendSubgroups_of_forall₂
      (hforest.imp (fun _ _ h => h.1 fuel hfuel)) []
    simp only [group.UseCase.GetGroups, group.New, NewGroupRepo, GroupRepo.GetGroups, happ,
      List.nil_append]
  · intro row hrow
    rw [hids, List.mem_map]
    constructor
    · rintro ⟨root, hroot, hid⟩
      have hmem := List.mem_filter.1 hroot
      have := eq_of_unique hu hmem.1 hrow hid
      subst this
      simpa using hmem.2
    · intro hnull
      exact ⟨row, List.mem_filter.2 ⟨hrow, by simpa using hnull⟩, rfl⟩

/-- Witness of C6 on `treeStore`: the forest holds "Math", fully expanded, and
"Physics". -/
theorem get_groups_forest_witness :
    UniqueIDs treeStore.groups ∧
    (group.New NewGroupRepo).GetGroups 6 treeStore =
      some (.ok [.mk 1 none "Math"
          [.mk 2 (some 1) "Algebra" [.mk 4 (some 2) "Linear" []],
           .mk 3 (some 1) "Geometry" []],
        .mk 5 none "Physics" []]) ∧
    ∃ forest : List entity.Group,
      (∀ fuel, 5 < fuel → (group.New NewGroupRepo).GetGroups fuel treeStore =
        some (.ok forest)) ∧
      forest.map entity.Group.ID = [1, 5] := by
  have hu : UniqueIDs treeStore.groups := by decide
  refine ⟨hu, rfl, ?_⟩
  obtain ⟨forest, h1, _, h3, _⟩ := get_groups_forest treeStore hu
  exact ⟨forest, h1, h3⟩

end TreeClaims

/-! ## Claims on searching groups -/

section SearchClaims

open persistent

theorem likeAny_split {rest : List Char → Bool} :
    ∀ t : List Char, likeAny rest t = true → ∃ s u, t = s ++ u ∧ rest u = true := by
  intro t
  induction t with
  | nil => intro h; exact ⟨[], [], rfl, by simpa [likeAny] using h⟩
  | cons c t ih =>
    intro h
    simp only [likeAny, Bool.or_eq_true] at h
    rcases h with h | h
    · exact ⟨[], c :: t, rfl, h⟩
    · obtain ⟨s, u, hsu, hu⟩ := ih h
      exact ⟨c :: s, u, by simp [hsu], hu⟩

theorem sqlLike_cons (c : Char) (p t : List Char) :
    sqlLike (c :: p) t =
      if c = '%' then likeAny (sqlLike p) t
      else if c = '_' then
        match t with
        | [] => false
        | _ :: t' => sqlLike p t'
      else if c = '\\' then
        match p, t with
        | e :: p', d :: t' => decide (e = d) && sqlLike p' t'
        | _, _ => false
      else
        match t with
        | [] => false
        | d :: t' => decide (c = d) && sqlLike p t' := by
  cases p <;> cases t <;> rfl

theorem sqlLike_literal {lit : List Char} (hlit : ∀ c ∈ lit, ¬ IsLikeSpecial c)
    (rest : List Char) :
    ∀ t : List Char, sqlLike (lit ++ rest) t = true →
      ∃ u, t = lit ++ u ∧ sqlLike rest u = true := by
  induction lit with
  | nil => intro t h; exact ⟨t, rfl, h⟩
  | cons c lit ih =>
    intro t h
    have hc := hlit c (List.mem_cons_self _ _)
    simp only [IsLikeSpecial, not_or] at hc
    obtain ⟨h1, h2, h3⟩ := hc
    rw [List.cons_append, sqlLike_cons, if_neg h1, if_neg h2, if_neg h3] at h
    cases t with
    | nil => simp at h
    | cons d t =>
      simp only [Bool.and_eq_true, decide_eq_true_eq] at h
      obtain ⟨u, hu, hrest⟩ := ih (fun c' hc' => hlit c' (List.mem_cons_of_mem _ hc')) t h.2
      exact ⟨u, by simp [h.1, hu], hrest⟩

theorem sqlLower_pattern (fold : CaseFold) (query : String) :
    sqlLower fold ("%" ++ query ++ "%") = '%' :: (sqlLower fold query ++ ['%']) := by
  have hlist : ("%" ++ query ++ "%").toList = '%' :: (query.toList ++ ['%']) := by
    simp [String.toList, String.data_append]
  simp only [sqlLower, hlist, fold.lower_enclosed]

theorem sqlLower_plain (fold : CaseFold) {query : String}
    (hq : ∀ c ∈ query.toList, ¬ IsLikeSpecial c) :
    ∀ c ∈ sqlLower fold query, ¬ IsLikeSpecial c :=
  fold.lower_plain _ hq

/-- Counterexample to C7: the query "a_c" finds the group "abc", whose name does not
contain "a_c"; likewise the query "%" finds "abc", and the query of one backslash
finds "50%". -/
theorem search_groups_wildcard_counterexample :
    (group.New NewGroupRepo).SearchGroups abcStore "a_c" = .ok [.mk 1 none "abc" []] ∧
    GroupRepo.SearchGroups abcStore "a_c" = .ok [.mk 1 none "abc" []] ∧
    ¬ ContainsFold abcStore.fold "abc" "a_c" ∧
    GroupRepo.SearchGroups abcStore "%" = .ok [.mk 1 none "abc" []] ∧
    ¬ ContainsFold abcStore.fold "abc" "%" ∧
    GroupRepo.SearchGroups percentStore "\\" = .ok [.mk 1 none "50%" []] ∧
    ¬ ContainsFold percentStore.fold "50%" "\\" := by
  refine ⟨rfl, rfl, ?_, rfl, ?_, rfl, ?_⟩ <;> decide

/-- C7 as amended: for a query without any of the characters `%`, `_` and
backslash, `SearchGroups` succeeds and every group it returns has a name that
contains the query as a substring, both put in lower case by the `LOWER` of the
database, whatever the locale of the database. -/
theorem search_groups_contains (r : Postgres) (query : String)
    (hq : ∀ c ∈ query.toList, ¬ IsLikeSpecial c) :
    ∃ groups, (group.New NewGroupRepo).SearchGroups r query = .ok groups ∧
      GroupRepo.SearchGroups r query = .ok groups ∧
      ∀ g ∈ groups, ContainsFold r.fold g.Name query := by
  refine ⟨_, rfl, rfl, ?_⟩
  intro g hg
  obtain ⟨row, hrow, rfl⟩ := List.mem_map.1 hg
  have hmatch := (List.mem_filter.1 hrow).2
  rw [sqlLower_pattern, sqlLike_cons, if_pos rfl] at hmatch
  obtain ⟨s, u, hsu, hu⟩ := likeAny_split _ hmatch
  obtain ⟨u', hu', _⟩ := sqlLike_literal (sqlLower_plain r.fold hq) _ u hu
  show sqlLower r.fold query <:+: sqlLower r.fold row.Name
  exact ⟨s, u', by rw [hsu, hu', List.append_assoc]⟩

/-- Witness of the amended C7: the query "ALG" on the store of the scenario, and the
query "анна" on `cyrillicStore`, which finds the group "Анна". -/
theorem search_groups_contains_witness :
    (∃ groups, (group.New NewGroupRepo).SearchGroups mathStore "ALG" = .ok groups ∧
      ∀ g ∈ groups, ContainsFold mathStore.fold g.Name "ALG") ∧
    GroupRepo.SearchGroups cyrillicStore "анна" = .ok [.mk 1 none "Анна" []] ∧
    (∃ groups, (group.New NewGroupRepo).SearchGroups cyrillicStore "анна" = .ok groups ∧
      ∀ g ∈ groups, ContainsFold cyrillicStore.fold g.Name "анна") := by
  refine ⟨?_, rfl, ?_⟩
  · obtain ⟨groups, h1, _, h3⟩ := search_groups_contains mathStore "ALG" (by decide)
    exact ⟨groups, h1, h3⟩
  · obtain ⟨groups, h1, _, h3⟩ := search_groups_contains cyrillicStore "анна" (by decide)
    exact ⟨groups, h1, h3⟩

/-- C8: for every store and every query the service `SearchGroups` succeeds and
every entry it returns has an empty `SubGroups` list; on the store of the scenario
the query "math" returns "Math" without its subgroup "Math/Algebra" nested in it. -/
theorem search_groups_flat (r : Postgres) (query : String) :
    (∃ groups, (group.New NewGroupRepo).SearchGroups r query = .ok groups ∧
      ∀ g ∈ groups, g.SubGroups = []) ∧
    (group.New NewGroupRepo).SearchGroups mathStore "math" =
      .ok [.mk 1 none "Math" [], .mk 2 (some 1) "Math/Algebra" []] := by
  refine ⟨⟨_, rfl, ?_⟩, rfl⟩
  intro g hg
  obtain ⟨row, _, rfl⟩ := List.mem_map.1 hg
  rfl


end SearchClaims

/-! ## Claims on creating a student -/

section StudentClaims

open persistent

/-- C9: when `CreateStudent(s)` succeeds on a store and returns a student with id
`i`, then on the resulting store `GetStudentByID(i)` succeeds, in the repository
and in the service, and returns a student with id `i`, the name of `s` and the
group reference of `s` (and no email). -/
theorem create_then_get_student (r r' : Postgres) (s created : entity.Student)
    (hcreate : (student.New NewStudentRepo).CreateStudent r s = (.ok created, r')) :
    StudentRepo.CreateStudent r s = (.ok created, r') ∧
    StudentRepo.GetStudentByID r' created.ID =
      .ok { ID := created.ID, GroupID := s.GroupID, Name := s.Name, Email := "" } ∧
    (student.New NewStudentRepo).GetStudentByID r' created.ID =
      .ok { ID := created.ID, GroupID := s.GroupID, Name := s.Name, Email := "" } := by
  have hrepo : StudentRepo.CreateStudent r s = (.ok created, r') := by
    simp only [student.UseCase.CreateStudent, student.New, NewStudentRepo] at hcreate
    cases hres : StudentRepo.CreateStudent r s with
    | mk res st =>
      rw [hres] at hcreate
      cases res with
      | error err => simp at hcreate
      | ok c => simpa using hcreate
  have hget : StudentRepo.GetStudentByID r' created.ID =
      .ok { ID := created.ID, GroupID := s.GroupID, Name := s.Name, Email := "" } := by
    unfold StudentRepo.CreateStudent at hrepo
    by_cases hdup : (r.students.any (fun row => decide (row.ID = r.studentsSeq))) = true
    · simp [hdup] at hrepo
    · simp only [hdup, Bool.false_eq_true, if_false, Prod.mk.injEq, Except.ok.injEq] at hrepo
      obtain ⟨hc, hr'⟩ := hrepo
      subst hc hr'
      have hnone : r.students.filter (fun row => decide (row.ID = r.studentsSeq)) = [] := by
        apply List.filter_eq_nil_iff.2
        intro row hrow hEq
        exact hdup (List.any_eq_true.2 ⟨row, hrow, hEq⟩)
      simp [StudentRepo.GetStudentByID, List.filter_append, hnone, scanStudent]
  refine ⟨hrepo, hget, ?_⟩
  simp only [student.UseCase.GetStudentByID, student.New, NewStudentRepo, hget]

/-- Witness of C9: creating "Ann" in `classStore` and reading her back. -/
theorem create_then_get_student_witness :
    (student.New NewStudentRepo).CreateStudent v1.classStore
        { ID := 0, GroupID := 1, Name := "Ann", Email := "ann@example.com" } =
      (.ok { ID := 8, GroupID := 1, Name := "Ann", Email := "ann@example.com" },
        { v1.classStore with
          students := [⟨7, "Bob", "bob@example.com", 1⟩, ⟨8, "Ann", "ann@example.com", 1⟩],
          studentsSeq := 9 }) ∧
    (student.New NewStudentRepo).GetStudentByID
        { v1.classStore with
          students := [⟨7, "Bob", "bob@example.com", 1⟩, ⟨8, "Ann", "ann@example.com", 1⟩],
          studentsSeq := 9 } 8 =
      .ok { ID := 8, GroupID := 1, Name := "Ann", Email := "" } :=
  have hcreate : (student.New NewStudentRepo).CreateStudent v1.classStore
        { ID := 0, GroupID := 1, Name := "Ann", Email := "ann@example.com" } =
      (.ok { ID := 8, GroupID := 1, Name := "Ann", Email := "ann@example.com" },
        { v1.classStore with
          students := [⟨7, "Bob", "bob@example.com", 1⟩, ⟨8, "Ann", "ann@example.com", 1⟩],
          studentsSeq := 9 }) := rfl
  ⟨hcreate, (create_then_get_student _ _ _ _ hcreate).2.2⟩

/-- C10 fails on the code: for every request that passes the validation and every
store whose next id is free, `POST /students` answers 201 with the created student
carrying the email of the request, which is not empty, so the serialized body has
the key "email" with that address. -/
theorem create_student_echoes_email (v : v1.Validate) (r : Postgres)
    (request : v1.createStudentRequest)
    (hvalid : v.createStudentRequest request = true)
    (hfree : ∀ row ∈ r.students, row.ID ≠ r.studentsSeq) :
    ((v1.studentRoutes.mk (student.New NewStudentRepo) v).createStudent r (.ok request)).1 =
      { status := 201,
        body := .student ⟨r.studentsSeq, request.GroupID, request.Name, request.Email⟩ } ∧
    request.Email ≠ "" ∧
    ("email", request.Email) ∈
      v1.studentJSON ⟨r.studentsSeq, request.GroupID, request.Name, request.Email⟩ := by
  have hemail : request.Email ≠ "" := by
    simp only [v1.Validate.createStudentRequest, Bool.and_eq_true, decide_eq_true_eq] at hvalid
    exact hvalid.1.2.1
  have hdup : (r.students.any (fun row => decide (row.ID = r.studentsSeq))) = false := by
    rw [Bool.eq_false_iff]
    intro h
    obtain ⟨row, hrow, hEq⟩ := List.any_eq_true.1 h
    exact hfree row hrow (by simpa using hEq)
  refine ⟨?_, hemail, ?_⟩
  · simp [v1.studentRoutes.createStudent, hvalid, student.UseCase.CreateStudent, student.New,
      NewStudentRepo, StudentRepo.CreateStudent, hdup, v1.StatusCreated]
  · simp [v1.studentJSON, hemail]

/-- Witness of the failure of C10: the request of "Ann" on `classStore` is answered
with status 201 and a body that holds her email. -/
theorem create_student_echoes_email_witness :
    ((v1.studentRoutes.mk (student.New NewStudentRepo) v1.hasAt).createStudent
        v1.classStore (.ok v1.annRequest)).1 =
      { status := 201,
        body := .student ⟨8, 1, "Ann", "ann@example.com"⟩ } ∧
    v1.studentJSON { ID := 8, GroupID := 1, Name := "Ann", Email := "ann@example.com" } =
      [("id", "8"), ("group_id", "1"), ("name", "Ann"), ("email", "ann@example.com")] :=
  ⟨(create_student_echoes_email v1.hasAt v1.classStore v1.annRequest
      (by decide) (by decide)).1, by decide⟩

end StudentClaims

/-! ## Claims on reading and searching students -/

section StudentReadClaims

open persistent

theorem likeAny_of_suffix {rest : List Char → Bool} {u : List Char} (hu : rest u = true) :
    ∀ s : List Char, likeAny rest (s ++ u) = true := by
  intro s
  induction s with
  | nil => cases u <;> simp [likeAny, hu]
  | cons c s ih => simp [likeAny, ih]

theorem sqlLike_literal_append {lit : List Char} (hlit : ∀ c ∈ lit, ¬ IsLikeSpecial c)
    (rest u : List Char) : sqlLike (lit ++ rest) (lit ++ u) = sqlLike rest u := by
  induction lit with
  | nil => rfl
  | cons c lit ih =>
    have hc := hlit c (List.mem_cons_self _ _)
    simp only [IsLikeSpecial, not_or] at hc
    obtain ⟨h1, h2, h3⟩ := hc
    rw [List.cons_append, List.cons_append, sqlLike_cons, if_neg h1, if_neg h2, if_neg h3]
    simp [ih (fun c' hc' => hlit c' (List.mem_cons_of_mem _ hc'))]

theorem sqlLike_percent (u : List Char) : sqlLike ['%'] u = true := by
  rw [sqlLike_cons, if_pos rfl]
  have h : sqlLike [] [] = true := rfl
  simpa using likeAny_of_suffix h u

theorem sqlLike_pattern_iff (fold : CaseFold) {query : String}
    (hq : ∀ c ∈ query.toList, ¬ IsLikeSpecial c) (name : String) :
    sqlLike (sqlLower fold ("%" ++ query ++ "%")) (sqlLower fold name) = true ↔
      ContainsFold fold name query := by
  have hlit := sqlLower_plain fold hq
  rw [sqlLower_pattern, sqlLike_cons, if_pos rfl]
  constructor
  · intro hmatch
    obtain ⟨s, u, hsu, hu⟩ := likeAny_split _ hmatch
    obtain ⟨u', hu', _⟩ := sqlLike_literal hlit _ u hu
    exact ⟨s, u', by rw [hsu, hu', List.append_assoc]⟩
  · rintro ⟨s, u, hsu⟩
    rw [← hsu, List.append_assoc]
    apply likeAny_of_suffix
    rw [sqlLike_literal_append hlit]
    exact sqlLike_percent u

/-- C11: for every store the students returned by `GetStudents`, by
`SearchStudents` and by `GetStudentByID`, in the service as in the repository, have
an empty `Email`, whatever email their rows hold, and their serialized form has no
key "email". -/
theorem read_students_without_email (r : Postgres) (query : String) (id : Int) :
    (∃ l, (student.New NewStudentRepo).GetStudents r = .ok l ∧
      StudentRepo.GetStudents r = .ok l ∧
      ∀ s ∈ l, s.Email = "" ∧ "email" ∉ (v1.studentJSON s).map Prod.fst) ∧
    (∃ l, (student.New NewStudentRepo).SearchStudents r query = .ok l ∧
      StudentRepo.SearchStudents r query = .ok l ∧
      ∀ s ∈ l, s.Email = "" ∧ "email" ∉ (v1.studentJSON s).map Prod.fst) ∧
    (∀ s, (student.New NewStudentRepo).GetStudentByID r id = .ok s →
      StudentRepo.GetStudentByID r id = .ok s ∧
      s.Email = "" ∧ "email" ∉ (v1.studentJSON s).map Prod.fst) := by
  have hscan : ∀ row : StudentRow, (scanStudent row).Email = "" ∧
      "email" ∉ (v1.studentJSON (scanStudent row)).map Prod.fst := by
    intro row
    refine ⟨rfl, ?_⟩
    simp [v1.studentJSON, scanStudent]
  refine ⟨⟨_, rfl, rfl, ?_⟩, ⟨_, rfl, rfl, ?_⟩, ?_⟩
  · intro s hs
    obtain ⟨row, _, rfl⟩ := List.mem_map.1 hs
    exact hscan row
  · intro s hs
    obtain ⟨row, _, rfl⟩ := List.mem_map.1 hs
    exact hscan row
  · intro s hs
    simp only [student.UseCase.GetStudentByID, student.New, NewStudentRepo,
      StudentRepo.GetStudentByID] at hs ⊢
    cases hsel : r.students.filter (fun row => decide (row.ID = id)) with
    | nil => simp [hsel] at hs
    | cons row rest =>
      simp only [hsel, Except.ok.injEq] at hs ⊢
      subst hs
      exact ⟨rfl, hscan row⟩

/-- Witness of C11 on `classStore`, whose student "Bob" has a stored email. -/
theorem read_students_without_email_witness :
    (student.New NewStudentRepo).GetStudentByID v1.classStore 7 =
      .ok ⟨7, 1, "Bob", ""⟩ ∧
    (student.New NewStudentRepo).GetStudents v1.classStore = .ok [⟨7, 1, "Bob", ""⟩] ∧
    (student.New NewStudentRepo).SearchStudents v1.classStore "bo" =
      .ok [⟨7, 1, "Bob", ""⟩] ∧
    (⟨7, 1, "Bob", ""⟩ : entity.Student).Email = "" :=
  ⟨rfl, rfl, rfl,
    ((read_students_without_email v1.classStore "bo" 7).2.2 ⟨7, 1, "Bob", ""⟩ rfl).2.1⟩

/-- Counterexample to C12: in `orphanStore` the name of "Ann" contains the query
"ann", yet `SearchStudents("ann")` returns nothing, because her group reference 99
names no group and the join drops her row; and the query "b_b" returns "Bob",
although neither "Bob" nor "Math" contains "b_b". -/
theorem search_students_orphan_counterexample :
    (⟨9, "Ann", "ann@example.com", 99⟩ : StudentRow) ∈ orphanStore.students ∧
    ContainsFold orphanStore.fold "Ann" "ann" ∧
    StudentRepo.SearchStudents orphanStore "ann" = .ok [] ∧
    (student.New NewStudentRepo).SearchStudents orphanStore "ann" = .ok [] ∧
    StudentRepo.SearchStudents orphanStore "b_b" = .ok [⟨7, 1, "Bob", ""⟩] ∧
    ¬ ContainsFold orphanStore.fold "Bob" "b_b" ∧
    ¬ ContainsFold orphanStore.fold "Math" "b_b" := by
  refine ⟨by decide, ?_, rfl, rfl, rfl, ?_, ?_⟩ <;> decide

/-- C12 as amended: for a query without any of the characters `%`, `_` and
backslash, `SearchStudents` returns exactly the students that have a row whose
group reference names an existing group and whose own name or that group's name
contains the query, both put in lower case by the `LOWER` of the database,
whatever the locale of the database; so every returned student refers to an
existing group, and a student whose group reference names no group is not
returned. -/
theorem search_students_joined (r : Postgres) (query : String)
    (hq : ∀ c ∈ query.toList, ¬ IsLikeSpecial c) :
    ∃ l, (student.New NewStudentRepo).SearchStudents r query = .ok l ∧
      StudentRepo.SearchStudents r query = .ok l ∧
      (∀ s, s ∈ l ↔ ∃ row ∈ r.students, s = scanStudent row ∧
        ∃ g ∈ r.groups, g.ID = row.GroupID ∧
          (ContainsFold r.fold row.Name query ∨ ContainsFold r.fold g.Name query)) ∧
      (∀ s ∈ l, ∃ g ∈ r.groups, g.ID = s.GroupID) := by
  have hiff : ∀ s, s ∈ ((r.students.flatMap (fun s =>
        (r.groups.filter (fun g => decide (s.GroupID = g.ID) &&
          (sqlLike (sqlLower r.fold ("%" ++ query ++ "%")) (sqlLower r.fold s.Name) ||
            sqlLike (sqlLower r.fold ("%" ++ query ++ "%")) (sqlLower r.fold g.Name)))).map
          (fun _ => s))).map scanStudent) ↔
      ∃ row ∈ r.students, s = scanStudent row ∧
        ∃ g ∈ r.groups, g.ID = row.GroupID ∧
          (ContainsFold r.fold row.Name query ∨ ContainsFold r.fold g.Name query) := by
    intro s
    simp only [List.mem_map, List.mem_flatMap, List.mem_filter, Bool.and_eq_true,
      Bool.or_eq_true, decide_eq_true_eq, sqlLike_pattern_iff r.fold hq]
    constructor
    · rintro ⟨row, ⟨row', hrow', g, ⟨hg, hid, hmatch⟩, rfl⟩, rfl⟩
      exact ⟨row', hrow', rfl, g, hg, hid.symm, hmatch⟩
    · rintro ⟨row, hrow, rfl, g, hg, hid, hmatch⟩
      exact ⟨row, ⟨row, hrow, g, ⟨hg, hid.symm, hmatch⟩, rfl⟩, rfl⟩
  refine ⟨_, rfl, rfl, hiff, ?_⟩
  intro s hs
  obtain ⟨row, _, rfl, g, hg, hid, _⟩ := (hiff s).1 hs
  exact ⟨g, hg, hid⟩

/-- Witness of the amended C12: the query "MAT" on `orphanStore` returns "Bob", whose
group is "Math"; and the query "анна" on `cyrillicStore` returns the student
"Анна". -/
theorem search_students_joined_witness :
    StudentRepo.SearchStudents orphanStore "MAT" = .ok [⟨7, 1, "Bob", ""⟩] ∧
    (∃ l, (student.New NewStudentRepo).SearchStudents orphanStore "MAT" = .ok l ∧
      ∀ s ∈ l, ∃ g ∈ orphanStore.groups, g.ID = s.GroupID) ∧
    StudentRepo.SearchStudents cyrillicStore "анна" = .ok [⟨3, 1, "Анна", ""⟩] ∧
    (∃ l, (student.New NewStudentRepo).SearchStudents cyrillicStore "анна" = .ok l ∧
      ∀ s, s ∈ l ↔ ∃ row ∈ cyrillicStore.students, s = scanStudent row ∧
        ∃ g ∈ cyrillicStore.groups, g.ID = row.GroupID ∧
          (ContainsFold cyrillicStore.fold row.Name "анна" ∨
            ContainsFold cyrillicStore.fold g.Name "анна")) := by
  refine ⟨rfl, ?_, rfl, ?_⟩
  · obtain ⟨l, h1, _, _, h4⟩ := search_students_joined orphanStore "MAT" (by decide)
    exact ⟨l, h1, h4⟩
  · obtain ⟨l, h1, _, h3, _⟩ := search_students_joined cyrillicStore "анна" (by decide)
    exact ⟨l, h1, h3⟩

end StudentReadClaims

/-! ## Claims on the answers of the group handlers -/

section HandlerClaims

open persistent

theorem selectByID_eq_nil {groups : List GroupRow} {id : Int}
    (h : ∀ row ∈ groups, row.ID ≠ id) : selectByID groups id = [] := by
  apply List.filter_eq_nil_iff.2
  intro row hrow hEq
  exact h row hrow (by simpa using hEq)

theorem GetGroupByID_missing {r : Postgres} {id : Int}
    (h : ∀ row ∈ r.groups, row.ID ≠ id) :
    GroupRepo.GetGroupByID r id =
      .error "GroupRepo - GetGroupByID - r.Pool.QueryRow: no rows in result set" := by
  simp only [GroupRepo.GetGroupByID, selectByID_eq_nil h, ErrNoRows]
  rfl

theorem DeleteGroup_missing {r : Postgres} {id : Int}
    (h : ∀ row ∈ r.groups, row.ID ≠ id) : GroupRepo.DeleteGroup r id = (.ok (), r) := by
  have hfilter : r.groups.filter (fun row => decide (¬ row.ID = id)) = r.groups := by
    apply List.filter_eq_self.2
    intro row hrow
    simpa using h row hrow
  cases r
  simp only [GroupRepo.DeleteGroup] at hfilter ⊢
  rw [hfilter]

theorem UpdateGroup_missing {r : Postgres} {group : entity.Group}
    (h : ∀ row ∈ r.groups, row.ID ≠ group.ID) :
    GroupRepo.UpdateGroup r group = (.ok (), r) := by
  have hmap : r.groups.map (fun row =>
      if row.ID = group.ID then
        ({ row with Name := group.Name, ParentID := group.ParentID } : GroupRow)
      else row) = r.groups := by
    conv_rhs => rw [← List.map_id r.groups]
    apply List.map_congr_left
    intro row hrow
    simp [h row hrow]
  cases r
  simp only [GroupRepo.UpdateGroup] at hmap ⊢
  rw [hmap]

theorem service_GetGroupByID_missing {r : Postgres} {id : Int}
    (h : ∀ row ∈ r.groups, row.ID ≠ id) :
    (group.New NewGroupRepo).GetGroupByID r id = .error
      ("GroupUseCase - GetGroupByID - uc.repo.GetGroupByID: " ++
        "GroupRepo - GetGroupByID - r.Pool.QueryRow: no rows in result set") := by
  simp only [group.UseCase.GetGroupByID, group.New, NewGroupRepo, GetGroupByID_missing h]

theorem service_GetGroupByID_of_mem {r : Postgres} {id : Int}
    (h : ∃ row ∈ r.groups, row.ID = id) :
    ∃ g, (group.New NewGroupRepo).GetGroupByID r id = .ok g := by
  rcases GetGroupByID_cases r id with ⟨hnone, _⟩ | ⟨row, _, _, _, hget⟩
  · obtain ⟨row, hrow, hid⟩ := h
    exact absurd hid (hnone row hrow)
  · exact ⟨scanGroup row, by
      simp only [group.UseCase.GetGroupByID, group.New, NewGroupRepo, hget]⟩

theorem deleteGroup_handler_missing {r : Postgres} {id : Int}
    (h : ∀ row ∈ r.groups, row.ID ≠ id) :
    (v1.groupRoutes.mk (group.New NewGroupRepo)).deleteGroup r (.ok id) =
      (v1.errorResponse 404 "group not found", r) := by
  simp only [v1.groupRoutes.deleteGroup, service_GetGroupByID_missing h, v1.StatusNotFound]

/-- Counterexample to C13: on the store of the scenario no group has the id 9, yet
`UpdateGroup` and `DeleteGroup` with that id report success, in the repository and
in the service, and leave the store as it was. -/
theorem update_delete_missing_counterexample :
    (∀ row ∈ mathStore.groups, row.ID ≠ 9) ∧
    GroupRepo.UpdateGroup mathStore (.mk 9 none "Chemistry" []) = (.ok (), mathStore) ∧
    (group.New NewGroupRepo).UpdateGroup mathStore (.mk 9 none "Chemistry" []) =
      (.ok (), mathStore) ∧
    GroupRepo.DeleteGroup mathStore 9 = (.ok (), mathStore) ∧
    (group.New NewGroupRepo).DeleteGroup mathStore 9 = (.ok (), mathStore) :=
  ⟨by decide, rfl, rfl, rfl, rfl⟩

/-- C13 as amended: for an id that names no group of the store, the repository's
`UpdateGroup` and `DeleteGroup` and the service's `UpdateGroup` report success and
leave the store as it was; the service's `DeleteGroup` does so too when no group
names the id as parent, and fails with the has-children error otherwise.  The
not-found answer comes from the handlers, which look the group up first:
`deleteGroup` and `updateGroup` answer 404 and leave the store as it was. -/
theorem update_delete_missing_group (r : Postgres) (id : Int) (name : String)
    (parent : Option Int) (hmissing : ∀ row ∈ r.groups, row.ID ≠ id) :
    GroupRepo.UpdateGroup r (.mk id parent name []) = (.ok (), r) ∧
    (group.New NewGroupRepo).UpdateGroup r (.mk id parent name []) = (.ok (), r) ∧
    GroupRepo.DeleteGroup r id = (.ok (), r) ∧
    ((∀ c ∈ r.groups, c.ParentID ≠ some id) →
      (group.New NewGroupRepo).DeleteGroup r id = (.ok (), r)) ∧
    ((∃ c ∈ r.groups, c.ParentID = some id) →
      (group.New NewGroupRepo).DeleteGroup r id =
        (.error "cannot delete group with subgroups", r)) ∧
    (v1.groupRoutes.mk (group.New NewGroupRepo)).deleteGroup r (.ok id) =
      (v1.errorResponse 404 "group not found", r) ∧
    (name ≠ "" →
      (v1.groupRoutes.mk (group.New NewGroupRepo)).updateGroup r (.ok id)
          (.ok ⟨name, parent⟩) =
        (v1.errorResponse 404 "group not found", r)) := by
  have hupd : GroupRepo.UpdateGroup r (.mk id parent name []) = (.ok (), r) :=
    UpdateGroup_missing hmissing
  have hdel : GroupRepo.DeleteGroup r id = (.ok (), r) := DeleteGroup_missing hmissing
  have hget := service_GetGroupByID_missing hmissing
  refine ⟨hupd, ?_, hdel, ?_, ?_, ?_, ?_⟩
  · simp only [group.UseCase.UpdateGroup, group.New, NewGroupRepo, hupd]
  · intro hleaf
    have hno : ¬ ∃ c ∈ r.groups, c.ParentID = some id := by
      rintro ⟨c, hc, hp⟩
      exact hleaf c hc hp
    simp [group.UseCase.DeleteGroup, group.New, NewGroupRepo, HasSubgroups_eq, hno, hdel]
  · intro hex
    simp [group.UseCase.DeleteGroup, group.New, NewGroupRepo, HasSubgroups_eq, hex]
  · exact deleteGroup_handler_missing hmissing
  · intro hname
    simp [v1.groupRoutes.updateGroup, v1.updateGroupRequest.valid, hname, hget,
      v1.StatusNotFound]

/-- Witness of the amended C13 on the store of the scenario and the id 9. -/
theorem update_delete_missing_group_witness :
    (group.New NewGroupRepo).UpdateGroup mathStore (.mk 9 none "Chemistry" []) =
      (.ok (), mathStore) ∧
    (group.New NewGroupRepo).DeleteGroup mathStore 9 = (.ok (), mathStore) ∧
    (v1.groupRoutes.mk (group.New NewGroupRepo)).deleteGroup mathStore (.ok 9) =
      (v1.errorResponse 404 "group not found", mathStore) ∧
    (v1.groupRoutes.mk (group.New NewGroupRepo)).updateGroup mathStore (.ok 9)
        (.ok ⟨"Chemistry", none⟩) =
      (v1.errorResponse 404 "group not found", mathStore) :=
  have h := update_delete_missing_group mathStore 9 "Chemistry" none (by decide)
  ⟨h.2.1, h.2.2.2.1 (by decide), h.2.2.2.2.2.1, h.2.2.2.2.2.2 (by decide)⟩

/-- C14: on the PostgreSQL store, whose calls fail for no other reason, the handler
`deleteGroup` answers 404 when no group has the id, 409 when a group has the id and
some group names it as parent, and 204 otherwise; the store is changed only in the
204 case, where the rows of that id are removed.  On the store of the scenario the
sequence DELETE 1, DELETE 2, DELETE 1 is answered 409, 204, 204 and leaves no
group. -/
theorem delete_group_handler_answers (r : Postgres) (id : Int) :
    (v1.groupRoutes.mk (group.New NewGroupRepo)).deleteGroup r (.ok id) =
      (if ∀ row ∈ r.groups, row.ID ≠ id then
        (v1.errorResponse 404 "group not found", r)
      else if ∃ c ∈ r.groups, c.ParentID = some id then
        (v1.errorResponse 409 "cannot delete group with subgroups", r)
      else
        ({ status := 204, body := .empty },
          { r with groups := r.groups.filter (fun row => ¬ row.ID = id) })) ∧
    (let first := (v1.groupRoutes.mk (group.New NewGroupRepo)).deleteGroup mathStore (.ok 1)
     let second := (v1.groupRoutes.mk (group.New NewGroupRepo)).deleteGroup first.2 (.ok 2)
     let third := (v1.groupRoutes.mk (group.New NewGroupRepo)).deleteGroup second.2 (.ok 1)
     first.1.status = 409 ∧ first.2.groups = mathStore.groups ∧
     second.1.status = 204 ∧ second.2.groups = [⟨1, "Math", none⟩] ∧
     third.1.status = 204 ∧ third.2.groups = []) := by
  refine ⟨?_, rfl, rfl, rfl, rfl, rfl, rfl⟩
  by_cases hmissing : ∀ row ∈ r.groups, row.ID ≠ id
  · rw [if_pos hmissing]
    exact deleteGroup_handler_missing hmissing
  · rw [if_neg hmissing]
    have hex : ∃ row ∈ r.groups, row.ID = id := by
      by_contra hcon
      exact hmissing (fun row hrow hid => hcon ⟨row, hrow, hid⟩)
    obtain ⟨g, hget⟩ := service_GetGroupByID_of_mem hex
    by_cases hchild : ∃ c ∈ r.groups, c.ParentID = some id
    · rw [if_pos hchild]
      have hsvc : (group.New NewGroupRepo).DeleteGroup r id =
          (.error "cannot delete group with subgroups", r) := by
        simp [group.UseCase.DeleteGroup, group.New, NewGroupRepo, HasSubgroups_eq, hchild]
      simp only [v1.groupRoutes.deleteGroup, hget, hsvc, if_true, v1.StatusConflict]
    · rw [if_neg hchild]
      have hsvc : (group.New NewGroupRepo).DeleteGroup r id =
          (.ok (), { r with groups := r.groups.filter (fun row => ¬ row.ID = id) }) := by
        simp [group.UseCase.DeleteGroup, group.New, NewGroupRepo, HasSubgroups_eq, hchild,
          GroupRepo.DeleteGroup]
      simp only [v1.groupRoutes.deleteGroup, hget, hsvc, v1.StatusNoContent]

theorem wrapped_ne_has_children (ctx err : String)
    (hctx : ctx.data.head? = some 'G') :
    ctx ++ err ≠ "cannot delete group with subgroups" := by
  intro h
  have hd := congrArg (fun s : String => s.data.head?) h
  simp only [String.data_append] at hd
  cases hdata : ctx.data with
  | nil => rw [hdata] at hctx; cases hctx
  | cons c cs =>
    rw [hdata] at hctx hd
    simp only [List.head?_cons, Option.some.injEq, List.cons_append] at hctx hd
    rw [hctx] at hd
    exact absurd hd (by decide)

/-- C15: for every repository, the handler `deleteGroup` answers 409 exactly when the
group is found and `HasSubgroups` returns true.  When `HasSubgroups` fails, or
returns false and the repository's `DeleteGroup` fails, with any message, the
service returns the message wrapped in its context, which differs from "cannot
delete group with subgroups", and the handler answers 500 for a group that is
found. -/
theorem delete_group_conflict_iff {σ : Type} (rp : repo.GroupRepo σ) (st : σ) (id : Int) :
    (((v1.groupRoutes.mk (group.New rp)).deleteGroup st (.ok id)).1.status = 409 ↔
      (∃ g, rp.GetGroupByID st id = .ok g) ∧ rp.HasSubgroups st id = .ok true) ∧
    (∀ err, rp.HasSubgroups st id = .error err →
      ((group.New rp).DeleteGroup st id).1 =
        .error ("GroupUseCase - DeleteGroup - uc.repo.HasSubgroups: " ++ err) ∧
      "GroupUseCase - DeleteGroup - uc.repo.HasSubgroups: " ++ err ≠
        "cannot delete group with subgroups" ∧
      ((∃ g, rp.GetGroupByID st id = .ok g) →
        ((v1.groupRoutes.mk (group.New rp)).deleteGroup st (.ok id)).1.status = 500)) ∧
    (∀ err st', rp.HasSubgroups st id = .ok false → rp.DeleteGroup st id = (.error err, st') →
      ((group.New rp).DeleteGroup st id).1 =
        .error ("GroupUseCase - DeleteGroup - uc.repo.DeleteGroup: " ++ err) ∧
      "GroupUseCase - DeleteGroup - uc.repo.DeleteGroup: " ++ err ≠
        "cannot delete group with subgroups" ∧
      ((∃ g, rp.GetGroupByID st id = .ok g) →
        ((v1.groupRoutes.mk (group.New rp)).deleteGroup st (.ok id)).1.status = 500)) := by
  have hne1 : ∀ err, "GroupUseCase - DeleteGroup - uc.repo.HasSubgroups: " ++ err ≠
      "cannot delete group with subgroups" := fun err => wrapped_ne_has_children _ err rfl
  have hne2 : ∀ err, "GroupUseCase - DeleteGroup - uc.repo.DeleteGroup: " ++ err ≠
      "cannot delete group with subgroups" := fun err => wrapped_ne_has_children _ err rfl
  refine ⟨?_, ?_, ?_⟩
  · cases hget : rp.GetGroupByID st id with
    | error e =>
      simp [v1.groupRoutes.deleteGroup, group.UseCase.GetGroupByID, group.New, hget,
        v1.errorResponse, v1.StatusNotFound]
    | ok g =>
      cases hhas : rp.HasSubgroups st id with
      | error e =>
        simp [v1.groupRoutes.deleteGroup, group.UseCase.GetGroupByID,
          group.UseCase.DeleteGroup, group.New, hget, hhas, hne1, v1.errorResponse,
          v1.StatusInternalServerError]
      | ok b =>
        cases b with
        | true =>
          simp [v1.groupRoutes.deleteGroup, group.UseCase.GetGroupByID,
            group.UseCase.DeleteGroup, group.New, hget, hhas, v1.errorResponse,
            v1.StatusConflict]
        | false =>
          cases hdel : rp.DeleteGroup st id with
          | mk res st' =>
            cases res with
            | error e =>
              simp [v1.groupRoutes.deleteGroup, group.UseCase.GetGroupByID,
                group.UseCase.DeleteGroup, group.New, hget, hhas, hdel, hne2,
                v1.errorResponse, v1.StatusInternalServerError]
            | ok u =>
              simp [v1.groupRoutes.deleteGroup, group.UseCase.GetGroupByID,
                group.UseCase.DeleteGroup, group.New, hget, hhas, hdel,
                v1.StatusNoContent]
  · intro err hhas
    refine ⟨by simp [group.UseCase.DeleteGroup, group.New, hhas], hne1 err, ?_⟩
    rintro ⟨g, hget⟩
    simp [v1.groupRoutes.deleteGroup, group.UseCase.GetGroupByID,
      group.UseCase.DeleteGroup, group.New, hget, hhas, hne1, v1.errorResponse,
      v1.StatusInternalServerError]
  · intro err st' hhas hdel
    refine ⟨by simp [group.UseCase.DeleteGroup, group.New, hhas, hdel], hne2 err, ?_⟩
    rintro ⟨g, hget⟩
    simp [v1.groupRoutes.deleteGroup, group.UseCase.GetGroupByID,
      group.UseCase.DeleteGroup, group.New, hget, hhas, hdel, hne2, v1.errorResponse,
      v1.StatusInternalServerError]

/-- Witness of C15: with a repository whose `HasSubgroups` fails with the text of
the has-children error itself, deleting "Math" is answered 500 and not 409. -/
theorem delete_group_conflict_iff_witness :
    ((v1.groupRoutes.mk (group.New failingGroupRepo)).deleteGroup mathStore (.ok 1)).1.status
      = 500 ∧
    ((group.New failingGroupRepo).DeleteGroup mathStore 1).1 =
      .error ("GroupUseCase - DeleteGroup - uc.repo.HasSubgroups: " ++
        "cannot delete group with subgroups") :=
  have h := (delete_group_conflict_iff failingGroupRepo mathStore 1).2.1
    "cannot delete group with subgroups" rfl
  ⟨h.2.2 ⟨_, rfl⟩, h.1⟩

/-- C16: the validation of a create-student request fails exactly when the name is
empty, the email is empty or refused by the check behind the tag `email`, or the
group id is missing (zero); and for every repository a request that the validation
rejects is answered 400 with the state of the store as it was, whatever the
repository's `CreateStudent` would do (so that method is not called). -/
theorem create_student_rejected {σ : Type} (rp : repo.StudentRepo σ) (v : v1.Validate)
    (st : σ) (request : v1.createStudentRequest) :
    (v.createStudentRequest request = false ↔
      request.Name = "" ∨ request.Email = "" ∨ v.email request.Email = false ∨
        request.GroupID = 0) ∧
    (v.createStudentRequest request = false →
      (v1.studentRoutes.mk (student.New rp) v).createStudent st (.ok request) =
        (v1.errorResponse 400 "validation failed", st)) := by
  constructor
  · simp only [v1.Validate.createStudentRequest, Bool.and_eq_false_iff, decide_eq_false_iff_not,
      ne_eq, not_not]
    tauto
  · intro hreject
    simp [v1.studentRoutes.createStudent, hreject, v1.StatusBadRequest]

/-- Witness of C16: the request with the email "not-an-email" is answered 400 on
`classStore`, which keeps its one student. -/
theorem create_student_rejected_witness :
    (v1.studentRoutes.mk (student.New NewStudentRepo) v1.hasAt).createStudent
        v1.classStore (.ok notAnEmailRequest) =
      (v1.errorResponse 400 "validation failed", v1.classStore) :=
  (create_student_rejected NewStudentRepo v1.hasAt v1.classStore notAnEmailRequest).2
    (by decide)

end HandlerClaims

/-! ## Claims on stores with cycles of parent references -/

section CycleClaims

open persistent

theorem appendSubgroups_none {f : Int → Option (Except String entity.Group)}
    (rows : List GroupRow)
    (hok : ∀ row ∈ rows, ∀ x, f row.ID = some x → ∃ full, x = .ok full)
    (hnone : ∃ row ∈ rows, f row.ID = none) :
    ∀ acc : List entity.Group, appendSubgroups f rows acc = none := by
  induction rows with
  | nil => obtain ⟨row, hrow, _⟩ := hnone; cases hrow
  | cons row rows ih =>
    intro acc
    cases hf : f row.ID with
    | none => simp [appendSubgroups, hf]
    | some x =>
      obtain ⟨full, rfl⟩ := hok row (List.mem_cons_self _ _) x hf
      simp only [appendSubgroups, hf]
      apply ih (fun row' hrow' => hok row' (List.mem_cons_of_mem _ hrow'))
      obtain ⟨row', hrow', hnone'⟩ := hnone
      rcases List.mem_cons.1 hrow' with rfl | hmem
      · rw [hf] at hnone'; cases hnone'
      · exact ⟨row', hmem, hnone'⟩

theorem GetGroupWithSubgroups_none_of_cycle (r : Postgres) (fuel : Nat) :
    ∀ id : Int, IsDescendantOf r.groups id id →
      GroupRepo.GetGroupWithSubgroups fuel r id = none := by
  induction fuel with
  | zero => intro id _; rfl
  | succ n ih =>
    intro id hcyc
    rw [GetGroupWithSubgroups_succ]
    rcases GetGroupByID_cases r id with ⟨hnone, _⟩ | ⟨row, _, _, _, hget⟩
    · obtain ⟨row, hrow, hid⟩ := List.mem_map.1 (isDescendantOf_mem_ids hcyc)
      exact absurd hid (hnone row hrow)
    · obtain ⟨b, hrefl, hchild⟩ := Relation.TransGen.tail'_iff.1 hcyc
      have hb : IsDescendantOf r.groups b b := Relation.TransGen.head' hchild hrefl
      obtain ⟨c, hc, hcid, hcpar⟩ := hchild
      have hcmem : c ∈ selectByParent r.groups id :=
        List.mem_filter.2 ⟨hc, by simpa using hcpar⟩
      have happ := appendSubgroups_none (selectByParent r.groups id)
        (fun c' hc' x hx => GetGroupWithSubgroups_ok_of_mem r n c'.ID
          ⟨c', (List.mem_filter.1 hc').1, rfl⟩ x hx)
        ⟨c, hcmem, by rw [hcid]; exact ih b hb⟩ (scanGroup row).SubGroups
      simp only [hget, happ]

/-- C17: when the id of a group is its own ancestor through parent references (a
group that names itself as parent included), `GetGroupWithSubgroups` on that id
runs out of fuel for every amount of fuel: it never returns a group nor an
error. -/
theorem get_group_with_subgroups_diverges (r : Postgres) (g : GroupRow)
    (hg : g ∈ r.groups)
    (hcyc : IsDescendantOf r.groups g.ID g.ID ∨ g.ParentID = some g.ID) (fuel : Nat) :
    GroupRepo.GetGroupWithSubgroups fuel r g.ID = none ∧
    (NewGroupRepo).GetGroupWithSubgroups fuel r g.ID = none := by
  have h : IsDescendantOf r.groups g.ID g.ID := by
    rcases hcyc with h | hself
    · exact h
    · exact Relation.TransGen.single ⟨g, hg, rfl, hself⟩
  exact ⟨GetGroupWithSubgroups_none_of_cycle r fuel _ h,
    GetGroupWithSubgroups_none_of_cycle r fuel _ h⟩

/-- Witness of C17 on `cycleStore`: the group 2, which lies on the cycle of 2 and 3,
and the group 4, its own parent, with the fuel 1000. -/
theorem get_group_with_subgroups_diverges_witness :
    IsDescendantOf cycleStore.groups 2 2 ∧
    GroupRepo.GetGroupWithSubgroups 1000 cycleStore 2 = none ∧
    GroupRepo.GetGroupWithSubgroups 1000 cycleStore 4 = none :=
  have h22 : IsDescendantOf cycleStore.groups 2 2 :=
    Relation.TransGen.tail
      (Relation.TransGen.single ⟨⟨2, "A", some 3⟩, by decide, rfl, rfl⟩)
      ⟨⟨3, "B", some 2⟩, by decide, rfl, rfl⟩
  ⟨h22,
    (get_group_with_subgroups_diverges cycleStore ⟨2, "A", some 3⟩ (by decide)
      (Or.inl h22) 1000).1,
    (get_group_with_subgroups_diverges cycleStore ⟨4, "Self", some 4⟩ (by decide)
      (Or.inr rfl) 1000).1⟩

theorem service_DeleteGroup_eq (r : Postgres) (id : Int) :
    (group.New NewGroupRepo).DeleteGroup r id =
      if ∃ c ∈ r.groups, c.ParentID = some id then
        (.error "cannot delete group with subgroups", r)
      else
        (.ok (), { r with groups := r.groups.filter (fun row => ¬ row.ID = id) }) := by
  by_cases hchild : ∃ c ∈ r.groups, c.ParentID = some id
  · rw [if_pos hchild]
    simp [group.UseCase.DeleteGroup, group.New, NewGroupRepo, HasSubgroups_eq, hchild]
  · rw [if_neg hchild]
    simp [group.UseCase.DeleteGroup, group.New, NewGroupRepo, HasSubgroups_eq, hchild,
      GroupRepo.DeleteGroup]

theorem isChildOf_after_delete {groups : List GroupRow} {j c p : Int}
    (hj : ¬ ∃ row ∈ groups, row.ParentID = some j)
    (hcp : IsChildOf groups c p) (hc : ∃ x, IsChildOf groups x c) :
    IsChildOf (groups.filter (fun row => ¬ row.ID = j)) c p := by
  obtain ⟨row, hrow, hid, hpar⟩ := hcp
  obtain ⟨x, row', hrow', _, hpar'⟩ := hc
  have hne : row.ID ≠ j := by
    intro hEq
    exact hj ⟨row', hrow', by rw [hpar', ← hEq, hid]⟩
  exact ⟨row, List.mem_filter.2 ⟨hrow, by simpa using hne⟩, hid, hpar⟩

theorem isDescendantOf_after_delete {groups : List GroupRow} {j a b : Int}
    (hj : ¬ ∃ row ∈ groups, row.ParentID = some j)
    (hab : IsDescendantOf groups a b) (ha : ∃ x, IsChildOf groups x a) :
    IsDescendantOf (groups.filter (fun row => ¬ row.ID = j)) a b := by
  unfold IsDescendantOf at hab ⊢
  induction hab with
  | single h => exact Relation.TransGen.single (isChildOf_after_delete hj h ha)
  | tail hprev hstep ih =>
    obtain ⟨x, _, hx⟩ := Relation.TransGen.tail'_iff.1 hprev
    exact Relation.TransGen.tail ih (isChildOf_after_delete hj hstep ⟨x, hx⟩)

theorem cycle_survives_deleteAll (ids : List Int) :
    ∀ (r : Postgres) (g : GroupRow), g ∈ r.groups → IsDescendantOf r.groups g.ID g.ID →
      g ∈ (deleteAll r ids).groups ∧ IsDescendantOf (deleteAll r ids).groups g.ID g.ID := by
  induction ids with
  | nil => intro r g hg hcyc; exact ⟨hg, hcyc⟩
  | cons j ids ih =>
    intro r g hg hcyc
    simp only [deleteAll]
    rw [service_DeleteGroup_eq]
    by_cases hchild : ∃ c ∈ r.groups, c.ParentID = some j
    · rw [if_pos hchild]
      exact ih r g hg hcyc
    · rw [if_neg hchild]
      obtain ⟨x, _, hx⟩ := Relation.TransGen.tail'_iff.1 hcyc
      have hne : g.ID ≠ j := by
        intro hEq
        obtain ⟨row, hrow, _, hpar⟩ := hx
        exact hchild ⟨row, hrow, by rw [hpar, hEq]⟩
      exact ih _ g (List.mem_filter.2 ⟨hg, by simpa using hne⟩)
        (isDescendantOf_after_delete hchild hcyc ⟨x, hx⟩)

/-- C20: when a group `g` of the store lies on a cycle of parent references (a group
that names itself as parent included), the service `DeleteGroup(g.ID)` fails with
the has-children error and returns the store as it was; and after any sequence of
service deletes, whatever their ids, `g` is still in the store and still lies on a
cycle. -/
theorem delete_group_on_cycle_refused (r : Postgres) (g : GroupRow) (hg : g ∈ r.groups)
    (hcyc : IsDescendantOf r.groups g.ID g.ID ∨ g.ParentID = some g.ID) :
    (group.New NewGroupRepo).DeleteGroup r g.ID =
      (.error "cannot delete group with subgroups", r) ∧
    ∀ ids : List Int, g ∈ (deleteAll r ids).groups ∧
      IsDescendantOf (deleteAll r ids).groups g.ID g.ID := by
  have h : IsDescendantOf r.groups g.ID g.ID := by
    rcases hcyc with h | hself
    · exact h
    · exact Relation.TransGen.single ⟨g, hg, rfl, hself⟩
  refine ⟨?_, fun ids => cycle_survives_deleteAll ids r g hg h⟩
  obtain ⟨x, _, row, hrow, _, hpar⟩ := Relation.TransGen.tail'_iff.1 h
  rw [service_DeleteGroup_eq, if_pos ⟨row, hrow, hpar⟩]

/-- Witness of C20 on `cycleStore`: deleting the self-parent group 4 is refused, and
the deletes of 5, 6, 1, 4, 2, 3 in a row remove every group but those on a cycle. -/
theorem delete_group_on_cycle_refused_witness :
    (group.New NewGroupRepo).DeleteGroup cycleStore 4 =
      (.error "cannot delete group with subgroups", cycleStore) ∧
    (deleteAll cycleStore [5, 6, 1, 4, 2, 3]).groups =
      [⟨2, "A", some 3⟩, ⟨3, "B", some 2⟩, ⟨4, "Self", some 4⟩] ∧
    (⟨4, "Self", some 4⟩ : GroupRow) ∈ (deleteAll cycleStore [5, 6, 1, 4, 2, 3]).groups :=
  have h := delete_group_on_cycle_refused cycleStore ⟨4, "Self", some 4⟩ (by decide)
    (Or.inr rfl)
  ⟨h.1, rfl, (h.2 [5, 6, 1, 4, 2, 3]).1⟩

end CycleClaims

/-! ## Claims on the nodes of the forest of `GetGroups` -/

section ForestClaims

open persistent

theorem nodeIDs_mk (id : Int) (p : Option Int) (n : String) (subs : List entity.Group) :
    nodeIDs (.mk id p n subs) = id :: forestIDs subs := by
  rw [nodeIDs]

theorem forestIDs_cons (g : entity.Group) (gs : List entity.Group) :
    forestIDs (g :: gs) = nodeIDs g ++ forestIDs gs := by
  rw [forestIDs]

theorem forestIDs_nil : forestIDs [] = [] := by
  rw [forestIDs]

theorem forest_nodes {S : GroupRow → Int → Prop} {rows : List GroupRow}
    {subs : List entity.Group}
    (h : List.Forall₂ (fun c sub => (nodeIDs sub).Nodup ∧ ∀ x, x ∈ nodeIDs sub ↔ S c x)
      rows subs)
    (hdisj : rows.Pairwise (fun c₁ c₂ => ∀ x, S c₁ x → S c₂ x → False)) :
    (forestIDs subs).Nodup ∧ ∀ x, x ∈ forestIDs subs ↔ ∃ c ∈ rows, S c x := by
  induction h with
  | nil => simp [forestIDs_nil]
  | @cons c sub rows' subs' hc _ ih =>
    obtain ⟨hhead, htail⟩ := List.pairwise_cons.1 hdisj
    obtain ⟨hnd, hmem⟩ := ih htail
    have hmem' : ∀ x, x ∈ forestIDs (sub :: subs') ↔ ∃ c' ∈ c :: rows', S c' x := by
      intro x
      rw [forestIDs_cons, List.mem_append, hc.2 x, hmem x]
      simp
    refine ⟨?_, hmem'⟩
    rw [forestIDs_cons, List.nodup_append]
    refine ⟨hc.1, hnd, ?_⟩
    intro x hx hx'
    obtain ⟨c', hc', hS⟩ := (hmem x).1 hx'
    exact hhead c' hc' x ((hc.2 x).1 hx) hS

theorem isChildOf_rightUnique {groups : List GroupRow} (h : UniqueIDs groups) :
    Relator.RightUnique (IsChildOf groups) :=
  fun _ _ _ h1 h2 => isChildOf_functional h h1 h2

theorem root_no_parent {groups : List GroupRow} (h : UniqueIDs groups) {root : GroupRow}
    (hroot : root ∈ groups) (hnull : root.ParentID = none) (p : Int) :
    ¬ IsChildOf groups root.ID p := by
  rintro ⟨row, hrow, hid, hpar⟩
  have := eq_of_unique h hrow hroot hid
  subst this
  rw [hnull] at hpar
  cases hpar

theorem root_not_descendant {groups : List GroupRow} (h : UniqueIDs groups)
    {root : GroupRow} (hroot : root ∈ groups) (hnull : root.ParentID = none) (p : Int) :
    ¬ IsDescendantOf groups root.ID p := by
  intro hdesc
  obtain ⟨y, hy, _⟩ := Relation.TransGen.head'_iff.1 hdesc
  exact root_no_parent h hroot hnull y hy

theorem reflTransGen_of_self_or_descendant {groups : List GroupRow} {x c : Int}
    (h : x = c ∨ IsDescendantOf groups x c) :
    Relation.ReflTransGen (IsChildOf groups) x c := by
  rcases h with rfl | h
  · exact Relation.ReflTransGen.refl
  · exact Relation.TransGen.to_reflTransGen h

theorem self_or_descendant_of_reflTransGen {groups : List GroupRow} {x c : Int}
    (h : Relation.ReflTransGen (IsChildOf groups) x c) :
    x = c ∨ IsDescendantOf groups x c := by
  rcases Relation.reflTransGen_iff_eq_or_transGen.1 h with heq | htrans
  · exact Or.inl heq.symm
  · exact Or.inr htrans

theorem child_not_above_child {groups : List GroupRow} (hu : UniqueIDs groups) {id : Int}
    (hno : NoCycleBelow groups id) {c₁ c₂ : Int} (h₁ : IsChildOf groups c₁ id)
    (h₂ : IsChildOf groups c₂ id) (hne : c₁ ≠ c₂) :
    ¬ Relation.ReflTransGen (IsChildOf groups) c₁ c₂ := by
  intro hr
  rcases Relation.reflTransGen_iff_eq_or_transGen.1 hr with heq | htrans
  · exact hne heq.symm
  · obtain ⟨y, hy, hrest⟩ := Relation.TransGen.head'_iff.1 htrans
    have hyid : y = id := isChildOf_functional hu hy h₁
    subst hyid
    exact hno c₂ (Relation.TransGen.single h₂) (Relation.TransGen.head' h₂ hrest)

theorem disjoint_children {groups : List GroupRow} (hu : UniqueIDs groups) {id : Int}
    (hno : NoCycleBelow groups id) {c₁ c₂ x : Int} (h₁ : IsChildOf groups c₁ id)
    (h₂ : IsChildOf groups c₂ id) (hne : c₁ ≠ c₂)
    (hx₁ : x = c₁ ∨ IsDescendantOf groups x c₁) (hx₂ : x = c₂ ∨ IsDescendantOf groups x c₂) :
    False := by
  rcases Relation.ReflTransGen.total_of_right_unique (isChildOf_rightUnique hu)
    (reflTransGen_of_self_or_descendant hx₁) (reflTransGen_of_self_or_descendant hx₂)
    with h | h
  · exact child_not_above_child hu hno h₁ h₂ hne h
  · exact child_not_above_child hu hno h₂ h₁ hne.symm h

theorem self_not_below_child {groups : List GroupRow} {id c : Int}
    (hno : NoCycleBelow groups id) (h : IsChildOf groups c id)
    (hx : id = c ∨ IsDescendantOf groups id c) : False :=
  hno c (Relation.TransGen.single h)
    (Relation.TransGen.head' h (reflTransGen_of_self_or_descendant hx))

theorem disjoint_roots {groups : List GroupRow} (hu : UniqueIDs groups)
    {r₁ r₂ : GroupRow} (h₁ : r₁ ∈ groups) (h₂ : r₂ ∈ groups) (hn₁ : r₁.ParentID = none)
    (hn₂ : r₂.ParentID = none) (hne : r₁.ID ≠ r₂.ID) {x : Int}
    (hx₁ : x = r₁.ID ∨ IsDescendantOf groups x r₁.ID)
    (hx₂ : x = r₂.ID ∨ IsDescendantOf groups x r₂.ID) : False := by
  rcases Relation.ReflTransGen.total_of_right_unique (isChildOf_rightUnique hu)
    (reflTransGen_of_self_or_descendant hx₁) (reflTransGen_of_self_or_descendant hx₂)
    with h | h
  · rcases Relation.reflTransGen_iff_eq_or_transGen.1 h with heq | htrans
    · exact hne heq.symm
    · exact root_not_descendant hu h₁ hn₁ _ htrans
  · rcases Relation.reflTransGen_iff_eq_or_transGen.1 h with heq | htrans
    · exact hne heq
    · exact root_not_descendant hu h₂ hn₂ _ htrans

theorem pairwise_ne_of_unique {groups : List GroupRow} (hu : UniqueIDs groups)
    (p : GroupRow → Bool) :
    (groups.filter p).Pairwise (fun c₁ c₂ => c₁.ID ≠ c₂.ID) := by
  have h : (groups.map GroupRow.ID).Pairwise (· ≠ ·) := hu
  exact (List.pairwise_map.1 h).filter p

theorem descendant_iff_child {groups : List GroupRow} {x id : Int} :
    IsDescendantOf groups x id ↔
      ∃ c ∈ selectByParent groups id, x = c.ID ∨ IsDescendantOf groups x c.ID := by
  constructor
  · intro h
    obtain ⟨b, hrefl, row, hrow, hid, hpar⟩ := Relation.TransGen.tail'_iff.1 h
    refine ⟨row, List.mem_filter.2 ⟨hrow, by simpa using hpar⟩, ?_⟩
    rw [hid]
    exact self_or_descendant_of_reflTransGen hrefl
  · rintro ⟨c, hc, hx⟩
    exact Relation.TransGen.tail' (reflTransGen_of_self_or_descendant hx)
      (isChildOf_of_mem_selectByParent hc)

theorem forall₂_imp_of_mem {α β : Type} {R S : α → β → Prop} {l : List α} {l' : List β}
    (h : List.Forall₂ R l l') (himp : ∀ a ∈ l, ∀ b, R a b → S a b) :
    List.Forall₂ S l l' := by
  induction h with
  | nil => exact List.Forall₂.nil
  | @cons a b l₁ l₂ hab _ ih =>
    exact List.Forall₂.cons (himp a (List.mem_cons_self _ _) b hab)
      (ih (fun a' ha' => himp a' (List.mem_cons_of_mem _ ha')))

theorem tree_nodes (r : Postgres) (hu : UniqueIDs r.groups) (fuel : Nat) :
    ∀ (id : Int) (full : entity.Group), NoCycleBelow r.groups id →
      GroupRepo.GetGroupWithSubgroups fuel r id = some (.ok full) →
      (nodeIDs full).Nodup ∧
        ∀ x, x ∈ nodeIDs full ↔ x = id ∨ IsDescendantOf r.groups x id := by
  induction fuel with
  | zero => intro id full _ h; simp [GroupRepo.GetGroupWithSubgroups] at h
  | succ n ih =>
    intro id full hno h
    obtain ⟨row, subs, _, hid, _, rfl, hall⟩ := GetGroupWithSubgroups_ok_inv h
    have hsubs : List.Forall₂ (fun c sub => (nodeIDs sub).Nodup ∧
        ∀ x, x ∈ nodeIDs sub ↔ x = c.ID ∨ IsDescendantOf r.groups x c.ID)
        (selectByParent r.groups id) subs :=
      forall₂_imp_of_mem hall (fun c hc sub hsub =>
        ih c.ID sub (noCycleBelow_child hno (isChildOf_of_mem_selectByParent hc)) hsub)
    have hdisj : (selectByParent r.groups id).Pairwise (fun c₁ c₂ =>
        ∀ x, (x = c₁.ID ∨ IsDescendantOf r.groups x c₁.ID) →
          (x = c₂.ID ∨ IsDescendantOf r.groups x c₂.ID) → False) := by
      have hpw := pairwise_ne_of_unique hu (fun row => decide (row.ParentID = some id))
      have hall' : ∀ c ∈ selectByParent r.groups id, IsChildOf r.groups c.ID id :=
        fun c hc => isChildOf_of_mem_selectByParent hc
      unfold selectByParent at hall' ⊢
      refine List.Pairwise.imp_of_mem ?_ hpw
      intro c₁ c₂ hc₁ hc₂ hne x hx₁ hx₂
      exact disjoint_children hu hno (hall' c₁ hc₁) (hall' c₂ hc₂) hne hx₁ hx₂
    obtain ⟨hnd, hmem⟩ := forest_nodes hsubs hdisj
    rw [nodeIDs_mk, hid]
    constructor
    · rw [List.nodup_cons]
      refine ⟨?_, hnd⟩
      intro hin
      obtain ⟨c, hc, hx⟩ := (hmem id).1 hin
      exact self_not_below_child hno (isChildOf_of_mem_selectByParent hc) hx
    · intro x
      rw [List.mem_cons, hmem x, descendant_iff_child]

theorem GetGroups_roots (r : Postgres) (hu : UniqueIDs r.groups) :
    ∃ forest : List entity.Group,
      (∀ fuel, r.groups.length < fuel →
        (group.New NewGroupRepo).GetGroups fuel r = some (.ok forest)) ∧
      List.Forall₂ (fun root full => ∀ fuel, r.groups.length < fuel →
          GroupRepo.GetGroupWithSubgroups fuel r root.ID = some (.ok full))
        (selectRoots r.groups) forest := by
  have hroots : ∀ root ∈ selectRoots r.groups, ∃ full : entity.Group,
      ∀ fuel, r.groups.length < fuel →
        GroupRepo.GetGroupWithSubgroups fuel r root.ID = some (.ok full) := by
    intro root hroot
    have hmem := List.mem_filter.1 hroot
    have hnull : root.ParentID = none := by simpa using hmem.2
    obtain ⟨row, subs, _, _, _, hres, _⟩ :=
      GetGroupWithSubgroups_spec (noCycleBelow_root hu hmem.1 hnull) ⟨root, hmem.1, rfl⟩
    exact ⟨_, hres⟩
  obtain ⟨forest, hforest⟩ := exists_forall₂_of_forall_exists _ hroots
  refine ⟨forest, fun fuel hfuel => ?_, hforest⟩
  have happ := appendSubgroups_of_forall₂ (hforest.imp (fun _ _ h => h fuel hfuel)) []
  simp only [group.UseCase.GetGroups, group.New, NewGroupRepo, GroupRepo.GetGroups, happ,
    List.nil_append]

theorem reachesRoot_iff {groups : List GroupRow} {x : Int} :
    ReachesRoot groups x ↔
      ∃ root ∈ selectRoots groups, x = root.ID ∨ IsDescendantOf groups x root.ID := by
  constructor
  · rintro ⟨root, hroot, hnull, hx⟩
    exact ⟨root, List.mem_filter.2 ⟨hroot, by simpa using hnull⟩, hx⟩
  · rintro ⟨root, hroot, hx⟩
    have hmem := List.mem_filter.1 hroot
    exact ⟨root, hmem.1, by simpa using hmem.2, hx⟩

/-- The forest of `GetGroups` in a store with unique ids: its nodes are, each once,
the ids that reach a root along the parent references. -/
theorem GetGroups_nodes (r : Postgres) (hu : UniqueIDs r.groups) :
    ∃ forest : List entity.Group,
      (∀ fuel, r.groups.length < fuel →
        (group.New NewGroupRepo).GetGroups fuel r = some (.ok forest)) ∧
      (forestIDs forest).Nodup ∧
      ∀ x, x ∈ forestIDs forest ↔ ReachesRoot r.groups x := by
  obtain ⟨forest, hget, hall⟩ := GetGroups_roots r hu
  have hrootmem : ∀ root ∈ selectRoots r.groups, root ∈ r.groups ∧ root.ParentID = none := by
    intro root hroot
    have hmem := List.mem_filter.1 hroot
    exact ⟨hmem.1, by simpa using hmem.2⟩
  have htrees : List.Forall₂ (fun root full => (nodeIDs full).Nodup ∧
      ∀ x, x ∈ nodeIDs full ↔ x = root.ID ∨ IsDescendantOf r.groups x root.ID)
      (selectRoots r.groups) forest :=
    forall₂_imp_of_mem hall (fun root hroot full hfull =>
      tree_nodes r hu _ root.ID full
        (noCycleBelow_root hu (hrootmem root hroot).1 (hrootmem root hroot).2)
        (hfull (r.groups.length + 1) (Nat.lt_succ_self _)))
  have hdisj : (selectRoots r.groups).Pairwise (fun r₁ r₂ =>
      ∀ x, (x = r₁.ID ∨ IsDescendantOf r.groups x r₁.ID) →
        (x = r₂.ID ∨ IsDescendantOf r.groups x r₂.ID) → False) := by
    have hpw := pairwise_ne_of_unique hu (fun row => decide (row.ParentID = none))
    unfold selectRoots at hrootmem ⊢
    refine List.Pairwise.imp_of_mem ?_ hpw
    intro r₁ r₂ h₁ h₂ hne x hx₁ hx₂
    exact disjoint_roots hu (hrootmem r₁ h₁).1 (hrootmem r₂ h₂).1 (hrootmem r₁ h₁).2
      (hrootmem r₂ h₂).2 hne hx₁ hx₂
  obtain ⟨hnd, hmem⟩ := forest_nodes htrees hdisj
  exact ⟨forest, hget, hnd, fun x => (hmem x).trans reachesRoot_iff.symm⟩

theorem not_cycle_of_reachesRoot {groups : List GroupRow} (hu : UniqueIDs groups) {x : Int}
    (h : ReachesRoot groups x) : ¬ IsDescendantOf groups x x := by
  obtain ⟨root, hroot, hnull, hx⟩ := h
  rcases hx with rfl | hdesc
  · exact root_not_descendant hu hroot hnull _
  · exact noCycleBelow_root hu hroot hnull x hdesc

/-- C18: in a store with unique ids, whatever cycles or missing parents its parent
references have, the service `GetGroups()` returns with any fuel above the number
of rows; no id that reaches a root lies on a cycle of parent references, no
descendant of a root does, and no id occurs twice among the nodes of the returned
forest. -/
theorem get_groups_terminates (r : Postgres) (hu : UniqueIDs r.groups) :
    (∃ forest : List entity.Group,
      (∀ fuel, r.groups.length < fuel →
        (group.New NewGroupRepo).GetGroups fuel r = some (.ok forest)) ∧
      (forestIDs forest).Nodup) ∧
    (∀ x, ReachesRoot r.groups x → ¬ IsDescendantOf r.groups x x) ∧
    (∀ root ∈ r.groups, root.ParentID = none → NoCycleBelow r.groups root.ID) := by
  obtain ⟨forest, hget, hnd, _⟩ := GetGroups_nodes r hu
  exact ⟨⟨forest, hget, hnd⟩, fun x hx => not_cycle_of_reachesRoot hu hx,
    fun root hroot hnull => noCycleBelow_root hu hroot hnull⟩

/-- Witness of C18 on `cycleStore`, which has a cycle, a self-parent and a missing
parent: `GetGroups` returns "Math" with its subgroup "Sub". -/
theorem get_groups_terminates_witness :
    UniqueIDs cycleStore.groups ∧
    (group.New NewGroupRepo).GetGroups 7 cycleStore =
      some (.ok [.mk 1 none "Math" [.mk 6 (some 1) "Sub" []]]) ∧
    ∃ forest : List entity.Group,
      (∀ fuel, 6 < fuel →
        (group.New NewGroupRepo).GetGroups fuel cycleStore = some (.ok forest)) ∧
      (forestIDs forest).Nodup :=
  have hu : UniqueIDs cycleStore.groups := by decide
  ⟨hu, rfl, (get_groups_terminates cycleStore hu).1⟩

theorem ancestors_finite (groups : List GroupRow) (id : Int) :
    (Ancestors groups id).Finite := by
  apply (List.finite_toSet (groups.filterMap GroupRow.ParentID)).subset
  intro p hp
  obtain ⟨b, _, row, hrow, _, hpar⟩ := Relation.TransGen.tail'_iff.1 hp
  exact List.mem_filterMap.2 ⟨row, hrow, hpar⟩

theorem ancestors_ncard_lt {groups : List GroupRow} (ha : Acyclic groups) {c p : Int}
    (hc : IsChildOf groups c p) :
    (Ancestors groups p).ncard < (Ancestors groups c).ncard := by
  apply Set.ncard_lt_ncard _ (ancestors_finite groups c)
  refine ⟨fun q hq => Relation.TransGen.head hc hq, fun hsub => ?_⟩
  have hpc : p ∈ Ancestors groups c := Relation.TransGen.single hc
  exact ha p (hsub hpc)

theorem reachesRoot_of_acyclic {groups : List GroupRow} (hd : NoDangling groups)
    (ha : Acyclic groups) (n : Nat) :
    ∀ row ∈ groups, (Ancestors groups row.ID).ncard < n → ReachesRoot groups row.ID := by
  induction n with
  | zero => intro row _ h; simp at h
  | succ n ih =>
    intro row hrow hlt
    cases hpar : row.ParentID with
    | none => exact ⟨row, hrow, hpar, Or.inl rfl⟩
    | some p =>
      obtain ⟨q, hq, hqid⟩ := hd row hrow p hpar
      have hchild : IsChildOf groups row.ID q.ID := ⟨row, hrow, rfl, by rw [hpar, hqid]⟩
      have hlt' := ancestors_ncard_lt ha hchild
      obtain ⟨root, hroot, hnull, hx⟩ := ih q hq (by omega)
      refine ⟨root, hroot, hnull, Or.inr ?_⟩
      exact Relation.TransGen.head' hchild (reflTransGen_of_self_or_descendant hx)

theorem reachesRoot_mem_ids {groups : List GroupRow} {x : Int} (h : ReachesRoot groups x) :
    ∃ g ∈ groups, g.ID = x := by
  obtain ⟨root, hroot, _, hx⟩ := h
  rcases hx with rfl | hdesc
  · exact ⟨root, hroot, rfl⟩
  · obtain ⟨g, hg, hid⟩ := List.mem_map.1 (isDescendantOf_mem_ids hdesc)
    exact ⟨g, hg, hid⟩

theorem not_reachesRoot_of_dangling {groups : List GroupRow} (hu : UniqueIDs groups)
    {x p : Int} (hxp : IsDescendantOf groups x p) (hp : ∀ row ∈ groups, row.ID ≠ p) :
    ¬ ReachesRoot groups x := by
  rintro ⟨root, hroot, hnull, hx⟩
  rcases Relation.ReflTransGen.total_of_right_unique (isChildOf_rightUnique hu)
    (reflTransGen_of_self_or_descendant hx) (Relation.TransGen.to_reflTransGen hxp)
    with h | h
  · rcases Relation.reflTransGen_iff_eq_or_transGen.1 h with heq | htrans
    · exact hp root hroot heq.symm
    · exact root_not_descendant hu hroot hnull _ htrans
  · rcases Relation.reflTransGen_iff_eq_or_transGen.1 h with heq | htrans
    · exact hp root hroot heq
    · obtain ⟨g, hg, hid⟩ := List.mem_map.1 (isDescendantOf_mem_ids htrans)
      exact hp g hg hid

theorem not_reachesRoot_of_cycle {groups : List GroupRow} (hu : UniqueIDs groups)
    {x c : Int} (hxc : x = c ∨ IsDescendantOf groups x c) (hc : IsDescendantOf groups c c) :
    ¬ ReachesRoot groups x := by
  rintro ⟨root, hroot, hnull, hx⟩
  rcases Relation.ReflTransGen.total_of_right_unique (isChildOf_rightUnique hu)
    (reflTransGen_of_self_or_descendant hx) (reflTransGen_of_self_or_descendant hxc)
    with h | h
  · rcases Relation.reflTransGen_iff_eq_or_transGen.1 h with heq | htrans
    · subst heq
      exact root_not_descendant hu hroot hnull _ hc
    · exact root_not_descendant hu hroot hnull _ htrans
  · rcases Relation.reflTransGen_iff_eq_or_transGen.1 h with heq | htrans
    · subst heq
      exact root_not_descendant hu hroot hnull _ hc
    · exact noCycleBelow_root hu hroot hnull c htrans hc

/-- C19: in a store with unique ids the forest returned by `GetGroups()` has as
nodes, at any depth, exactly the groups whose parent references lead to a group
with a null parent reference, each of them once.  So when every parent reference
names a group of the store and the parent graph is acyclic, the ids of the nodes
are a permutation of the ids of the store; and a group whose chain of parent
references reaches a missing id, or a group on a cycle, is not among the nodes. -/
theorem get_groups_nodes (r : Postgres) (hu : UniqueIDs r.groups) :
    ∃ forest : List entity.Group,
      (∀ fuel, r.groups.length < fuel →
        (group.New NewGroupRepo).GetGroups fuel r = some (.ok forest)) ∧
      (∀ g ∈ r.groups, g.ID ∈ forestIDs forest ↔ ReachesRoot r.groups g.ID) ∧
      (∀ x ∈ forestIDs forest, ∃ g ∈ r.groups, g.ID = x) ∧
      (forestIDs forest).Nodup ∧
      (∀ g ∈ r.groups, ReachesRoot r.groups g.ID → (forestIDs forest).count g.ID = 1) ∧
      (NoDangling r.groups → Acyclic r.groups →
        (forestIDs forest).Perm (r.groups.map GroupRow.ID)) ∧
      (∀ g ∈ r.groups, ∀ p, IsDescendantOf r.groups g.ID p →
        (∀ row ∈ r.groups, row.ID ≠ p) → g.ID ∉ forestIDs forest) ∧
      (∀ g ∈ r.groups, ∀ c, (g.ID = c ∨ IsDescendantOf r.groups g.ID c) →
        IsDescendantOf r.groups c c → g.ID ∉ forestIDs forest) := by
  obtain ⟨forest, hget, hnd, hmem⟩ := GetGroups_nodes r hu
  refine ⟨forest, hget, fun g _ => hmem g.ID,
    fun x hx => reachesRoot_mem_ids ((hmem x).1 hx), hnd, ?_, ?_, ?_, ?_⟩
  · intro g _ hreach
    exact List.count_eq_one_of_mem hnd ((hmem g.ID).2 hreach)
  · intro hd ha
    rw [List.perm_ext_iff_of_nodup hnd hu]
    intro x
    rw [hmem x]
    constructor
    · intro hx
      obtain ⟨g, hg, hid⟩ := reachesRoot_mem_ids hx
      exact List.mem_map.2 ⟨g, hg, hid⟩
    · intro hx
      obtain ⟨g, hg, rfl⟩ := List.mem_map.1 hx
      exact reachesRoot_of_acyclic hd ha _ g hg (Nat.lt_succ_self _)
  · intro g _ p hgp hp hin
    exact not_reachesRoot_of_dangling hu hgp hp ((hmem g.ID).1 hin)
  · intro g _ c hgc hc hin
    exact not_reachesRoot_of_cycle hu hgc hc ((hmem g.ID).1 hin)

/-- Witness of C19: on `treeStore`, where every parent exists and there is no
cycle, the nodes of the forest are the five groups; on `cycleStore` they are only
the groups 1 and 6. -/
theorem get_groups_nodes_witness :
    (∃ forest : List entity.Group,
      (∀ fuel, 5 < fuel →
        (group.New NewGroupRepo).GetGroups fuel treeStore = some (.ok forest)) ∧
      (forestIDs forest).Perm [1, 2, 3, 4, 5]) ∧
    (∃ forest : List entity.Group,
      (group.New NewGroupRepo).GetGroups 7 cycleStore = some (.ok forest) ∧
      forestIDs forest = [1, 6] ∧
      (∀ g ∈ cycleStore.groups, g.ID ∈ forestIDs forest ↔
        ReachesRoot cycleStore.groups g.ID)) := by
  constructor
  · obtain ⟨forest, h1, _, _, _, _, h6, _⟩ := get_groups_nodes treeStore (by decide)
    refine ⟨forest, h1, h6 ?_ (acyclic_of_rank treeRank (by simp [treeStore, treeRank]))⟩
    intro row hrow p hpar
    simp only [treeStore, List.mem_cons, List.mem_singleton, List.not_mem_nil, or_false] at hrow
    rcases hrow with rfl | rfl | rfl | rfl | rfl <;> simp at hpar <;> subst hpar <;>
      simp [treeStore]
  · obtain ⟨forest, h1, h2, _⟩ := get_groups_nodes cycleStore (by decide)
    have h7 := h1 7 (by decide)
    have hval : (group.New NewGroupRepo).GetGroups 7 cycleStore =
        some (.ok [.mk 1 none "Math" [.mk 6 (some 1) "Sub" []]]) := rfl
    have hforest : forest = [.mk 1 none "Math" [.mk 6 (some 1) "Sub" []]] := by
      rw [hval] at h7
      exact (Except.ok.inj (Option.some.inj h7)).symm
    subst hforest
    exact ⟨_, hval, rfl, h2⟩

end ForestClaims
